import Mathlib

/-!
Verification of the S.C.A.H. Excel-import subsystem.

The repository contains two generations of the import parser:

* the phase-2 rewrite, embedded as the string
  `FILES["utils/excel_parser.py"]` inside `src/_rebuild_phase2.py`
  (functions `_normalize`, `_map_column`, `detectar_mapeo`,
  `obtener_columnas_faltantes`, `_parse_date`, `_parse_edad`,
  `_parse_documento`, `_split_apellido_nombre`, `_procesar_fila`,
  `procesar_dataframe`), which runs against the settings written by
  `src/_rebuild_phase1.py` (`COLUMNAS_MAPEO` with an `apellido_nombre`
  field, `COLUMNAS_IGNORAR`); and

* the multi-sheet class parser checked in as `src/utils/excel_parser.py`
  (`ExcelParser._process_row`, `ExcelParser.parse`,
  `ExcelParser._read_file`, `ExcelParser._parse_date`).

Both are embedded below.  Python library behaviour (`str.strip`,
`str.split`, `str.isdigit`, `datetime.strptime` for the purely numeric
formats used here, `unicodedata.normalize("NFKD", ·)` followed by
ASCII-encoding with errors ignored) is modelled on the character
repertoire these parsers exercise; each such modelling choice is noted
at the definition it concerns.  Cell values are modelled as strings
(the phase-2 reader can also hand native timestamp objects to
`_parse_date`; that branch is outside the string model).
-/

namespace SCAH

/-! ## Python-style string primitives -/

/-- ASCII whitespace as recognised by Python `str.strip` / `str.split`
(space, tab, newline, carriage return, vertical tab, form feed).
Python also treats some non-ASCII Unicode spaces as whitespace; the
model is restricted to the ASCII ones. -/
def isPyWs (c : Char) : Bool :=
  c = ' ' || c = '\t' || c = '\n' || c = '\r' || c = Char.ofNat 11 || c = Char.ofNat 12

/-- `str.strip()` on a character list. -/
def pyStripL (l : List Char) : List Char :=
  ((l.dropWhile isPyWs).reverse.dropWhile isPyWs).reverse

/-- `str.strip()`. -/
def pyStrip (s : String) : String :=
  String.mk (pyStripL s.data)

/-- ASCII digit. `str.isdigit` also accepts some Unicode digits; the
model is restricted to ASCII. -/
def isDigitC (c : Char) : Bool :=
  '0' ≤ c && c ≤ '9'

def isAsciiAlphaC (c : Char) : Bool :=
  ('a' ≤ c && c ≤ 'z') || ('A' ≤ c && c ≤ 'Z')

/-- ASCII alphanumeric. `str.isalnum` also accepts Unicode letters;
the model is restricted to ASCII. -/
def isAlnumC (c : Char) : Bool :=
  isDigitC c || isAsciiAlphaC c

/-- `str.isdigit()`: non-empty and all digits. -/
def allDigits (l : List Char) : Bool :=
  !l.isEmpty && l.all isDigitC

/-- `str.isalnum()`: non-empty and all alphanumeric. -/
def allAlnum (l : List Char) : Bool :=
  !l.isEmpty && l.all isAlnumC

def natOfDigits (l : List Char) : Nat :=
  l.foldl (fun a c => a * 10 + (c.toNat - 48)) 0

/-- ASCII lowering, as in Python `str.lower` restricted to ASCII. -/
def toLowerStr (s : String) : String :=
  String.mk (s.data.map Char.toLower)

/-- Python `str.split()` (no separator): split on whitespace runs,
discarding empty pieces.  `acc` holds the current word reversed. -/
def splitWsAux : List Char → List Char → List (List Char)
  | [], acc => if acc.isEmpty then [] else [acc.reverse]
  | c :: t, acc =>
    if isPyWs c then
      if acc.isEmpty then splitWsAux t [] else acc.reverse :: splitWsAux t []
    else splitWsAux t (c :: acc)

def splitWs (l : List Char) : List (List Char) :=
  splitWsAux l []

/-- `" ".join(words)`. -/
def joinSpace : List (List Char) → List Char
  | [] => []
  | [w] => w
  | w :: ws => w ++ ' ' :: joinSpace ws

/-- Control characters removed by `sanitizar_texto`
(`[\x00-\x1f\x7f-\x9f]`). -/
def isCtrl (c : Char) : Bool :=
  c.toNat ≤ 31 || (127 ≤ c.toNat && c.toNat ≤ 159)

/-- `utils/validators.py::sanitizar_texto`:
`" ".join(texto.strip().split())` followed by removing control
characters. -/
def sanitizarTexto (s : String) : String :=
  String.mk ((joinSpace (splitWs (pyStripL s.data))).filter (fun c => !isCtrl c))

/-- `text.split(sep, 1)` for a one-character separator, given that the
separator occurs: the part before the first occurrence and the part
after it. -/
def splitFirst (sep : Char) : List Char → List Char × List Char
  | [] => ([], [])
  | c :: t =>
    if c = sep then ([], t)
    else
      let p := splitFirst sep t
      (c :: p.1, p.2)

/-- First-match association lookup (model of a pandas `Series` /
`dict` indexed by column name; mapping construction below never
produces duplicate keys). -/
def assq (l : List (String × String)) (k : String) : Option String :=
  match l with
  | [] => none
  | p :: t => if p.1 = k then some p.2 else assq t k

/-! ## Dates

`datetime.date` values; `datetime.strptime` is modelled for the purely
numeric formats the parsers use (`%d`, `%m`, `%y`, `%Y` joined by one
of `/`, `-`, `.`).  CPython compiles these to regexes: `%Y` is exactly
four digits, `%y` exactly two, `%d` one or two digits valued 1–31,
`%m` one or two digits valued 1–12 (the rarely-used space-padded `%d`
alternative is not modelled), the whole string must be consumed, and
`datetime` construction then validates the day against the month
length and leap years (year 1–9999). -/

structure Date where
  year : Nat
  month : Nat
  day : Nat
deriving DecidableEq, Repr

def isLeap (y : Nat) : Bool :=
  (y % 4 = 0 && y % 100 ≠ 0) || y % 400 = 0

def daysInMonth (y m : Nat) : Nat :=
  if m = 2 then (if isLeap y then 29 else 28)
  else if m = 4 || m = 6 || m = 9 || m = 11 then 30
  else 31

def validDate (y m d : Nat) : Bool :=
  1 ≤ y && y ≤ 9999 && 1 ≤ m && m ≤ 12 && 1 ≤ d && d ≤ daysInMonth y m

/-- Field order of a numeric date format. -/
inductive DOrder where
  | dmy
  | mdy
  | ymd
deriving DecidableEq, Repr

/-- A numeric `strptime` format: field order, separator, and whether
the year field is `%Y` (four digits) or `%y` (two digits). -/
structure DateFmt where
  ord : DOrder
  sep : Char
  y4 : Bool
deriving DecidableEq, Repr

/-- `text.split(sep)`: every occurrence splits. -/
def splitSep (sep : Char) : List Char → List (List Char)
  | [] => [[]]
  | c :: t =>
    if c = sep then [] :: splitSep sep t
    else
      match splitSep sep t with
      | [] => [[c]]
      | h :: r => (c :: h) :: r

/-- `%d`: one or two digits valued 1–31. -/
def okDay (p : List Char) : Bool :=
  allDigits p && p.length ≤ 2 && 1 ≤ natOfDigits p && natOfDigits p ≤ 31

/-- `%m`: one or two digits valued 1–12. -/
def okMonth (p : List Char) : Bool :=
  allDigits p && p.length ≤ 2 && 1 ≤ natOfDigits p && natOfDigits p ≤ 12

/-- `%Y`: exactly four digits. -/
def okY4 (p : List Char) : Bool :=
  allDigits p && p.length = 4

/-- `%y`: exactly two digits. -/
def okY2 (p : List Char) : Bool :=
  allDigits p && p.length = 2

/-- POSIX / CPython two-digit-year rule: 0–68 maps to 2000–2068,
69–99 to 1969–1999. -/
def y2Full (n : Nat) : Nat :=
  if n ≤ 68 then 2000 + n else 1900 + n

/-- `datetime.strptime(s, fmt).date()` for a numeric format, or `none`
on `ValueError`. -/
def matchFmt (f : DateFmt) (s : String) : Option Date :=
  match splitSep f.sep s.data with
  | [a, b, c] =>
    let ys := match f.ord with | .dmy => c | .mdy => c | .ymd => a
    let ms := match f.ord with | .dmy => b | .mdy => a | .ymd => b
    let ds := match f.ord with | .dmy => a | .mdy => b | .ymd => c
    if (cond f.y4 (okY4 ys) (okY2 ys)) && okMonth ms && okDay ds then
      let y := cond f.y4 (natOfDigits ys) (y2Full (natOfDigits ys))
      if validDate y (natOfDigits ms) (natOfDigits ds) then
        some ⟨y, natOfDigits ms, natOfDigits ds⟩
      else none
    else none
  | _ => none

/-- `for fmt in formats: try strptime... except ValueError: continue`:
the first format that parses wins. -/
def firstMatch (fs : List DateFmt) (s : String) : Option Date :=
  match fs with
  | [] => none
  | f :: t =>
    match matchFmt f s with
    | some d => some d
    | none => firstMatch t s

/-- The format list of `_parse_date` in the phase-2 parser, in source
order: `%d/%m/%Y`, `%d-%m-%Y`, `%Y-%m-%d`, `%d/%m/%y`, `%d-%m-%y`,
`%d.%m.%Y`, `%d.%m.%y`, `%Y/%m/%d`, `%m/%d/%Y`. -/
def formatosP2 : List DateFmt :=
  [⟨.dmy, '/', true⟩, ⟨.dmy, '-', true⟩, ⟨.ymd, '-', true⟩,
   ⟨.dmy, '/', false⟩, ⟨.dmy, '-', false⟩, ⟨.dmy, '.', true⟩,
   ⟨.dmy, '.', false⟩, ⟨.ymd, '/', true⟩, ⟨.mdy, '/', true⟩]

/-- Strings treated as missing by the phase-2 `_parse_date`. -/
def badDateTokens : List String :=
  ["nat", "nan", "none"]

/-- Phase-2 `_parse_date` on a string value: strip, reject the missing
markers, then try the formats in order (there is no further fallback;
unmatched strings yield `None` after a warning log). -/
def parseDateStr (s : String) : Option Date :=
  let t := pyStrip s
  if t = "" ∨ toLowerStr t ∈ badDateTokens then none
  else firstMatch formatosP2 t

/-- Phase-2 `_parse_date` lifted to an optional cell value
(`valor is None` yields `None`). -/
def parseDateVal : Option String → Option Date
  | none => none
  | some s => parseDateStr s

/-- `str(d)` for a `datetime.date`: ISO `YYYY-MM-DD`, zero padded. -/
def padNum (w n : Nat) : String :=
  let s := toString n
  String.mk (List.replicate (w - s.length) '0') ++ s

def dateToStr (d : Date) : String :=
  padNum 4 d.year ++ "-" ++ padNum 2 d.month ++ "-" ++ padNum 2 d.day

/-! ## Numbers: `int(float(s))` -/

/-- `int(float(s))` for plain decimal strings (optional sign, digits,
optional fraction; exponent and `inf`/`nan` spellings are not
modelled), truncating toward zero; `none` models `ValueError`. -/
def parseNumTrunc (s : String) : Option Int :=
  let t := pyStripL s.data
  let signNeg : Bool := match t with | '-' :: _ => true | _ => false
  let rest : List Char := match t with
    | '-' :: r => r
    | '+' :: r => r
    | r => r
  let ip := rest.takeWhile isDigitC
  let after := rest.drop ip.length
  let ok : Bool :=
    match after with
    | [] => !ip.isEmpty
    | '.' :: fp => (!ip.isEmpty || !fp.isEmpty) && fp.all isDigitC
    | _ => false
  if ok then
    let v : Int := Int.ofNat (natOfDigits ip)
    some (if signNeg then -v else v)
  else none

/-- Phase-2 `_parse_edad`: `int(float(str(valor)))`, kept only when
strictly between 0 and 150.  `ExcelParser._process_row` applies the
same conversion and range test to its age column. -/
def parseEdadVal (v : Option String) : Option Int :=
  match v with
  | none => none
  | some s =>
    match parseNumTrunc s with
    | none => none
    | some e => if 0 < e ∧ e < 150 then some e else none

/-! ## Documents: phase-2 `_parse_documento` -/

/-- `texto.replace(".", "").replace("-", "").replace(" ", "")` applied
to the stripped value. -/
def cleanDoc (s : String) : List Char :=
  (pyStripL s.data).filter (fun c => c ≠ '.' && c ≠ '-' && c ≠ ' ')

/-- `if limpio.endswith(".0"): limpio = limpio[:-2]` — note the dots
were already removed by the preceding `replace`, so on the values this
is applied to the condition can never hold (proved below). -/
def stripDot0 (l : List Char) : List Char :=
  if (l.reverse.take 2) = ['0', '.'] then (l.dropLast).dropLast else l

/-- Phase-2 `_parse_documento`: returns `(dni, pasaporte)`.
The final Python line `return None, limpio.upper() if limpio else
(None, None)` parses as `(None, limpio.upper())` when `limpio` is
non-empty and otherwise returns the nested tuple `(None, (None,
None))` (an operator-precedence slip); the model returns `(none,
none)` for that degenerate branch, which is only reached when the
cleaned value is empty. -/
def parseDocumento (s : String) : Option String × Option String :=
  let t := pyStrip s
  if t = "" ∨ toLowerStr t ∈ ["nan", "none"] then (none, none)
  else
    let limpio := stripDot0 (cleanDoc s)
    if allDigits limpio && 7 ≤ limpio.length && limpio.length ≤ 8 then
      (some (String.mk limpio), none)
    else if allAlnum limpio && 5 ≤ limpio.length && limpio.length ≤ 15 then
      (none, some (String.mk (limpio.map Char.toUpper)))
    else if allDigits limpio then
      if limpio.length < 7 then (none, none)
      else (some (String.mk (limpio.take 8)), none)
    else if !limpio.isEmpty then
      (none, some (String.mk (limpio.map Char.toUpper)))
    else (none, none)

/-- Phase-2 `_parse_documento` on an optional cell value. -/
def parseDocumentoVal : Option String → Option String × Option String
  | none => (none, none)
  | some s => parseDocumento s

/-! ## Name splitting: phase-2 `_split_apellido_nombre` -/

/-- Phase-2 `_split_apellido_nombre`.  With a comma: split at the
first comma and strip both sides.  Without: the last whitespace token
is the given name, the preceding tokens joined are the surname; a
single token is all surname.  The `[]` token-list branch is
unreachable for control-character-free inputs (the sanitised text
would have been empty); Python would raise `IndexError` there, which
the row loop would record as a row error — it is modelled as two empty
parts. -/
def splitApellidoNombre (v : String) : String × String :=
  let texto := sanitizarTexto v
  if texto = "" then ("", "")
  else if texto.data.contains ',' then
    let p := splitFirst ',' texto.data
    (String.mk (pyStripL p.1), String.mk (pyStripL p.2))
  else
    match splitWs texto.data with
    | [] => ("", "")
    | [w] => (String.mk w, "")
    | [w1, w2] => (String.mk w1, String.mk w2)
    | ws => (String.mk (joinSpace ws.dropLast), String.mk (ws.getLastD []))

/-- Phase-2 `_split_apellido_nombre` on an optional cell value. -/
def splitApellidoNombreVal : Option String → String × String
  | none => ("", "")
  | some s => splitApellidoNombre s

/-! ## Header normalisation: phase-2 `_normalize`

`unicodedata.normalize("NFKD", text)` followed by
`encode("ascii", "ignore")` is modelled by `asciiFold`: ASCII
characters map to themselves; the accented Latin letters, the ordinal
signs and the degree sign that appear in this repository's headers and
alias tables map to their NFKD ASCII skeleton (`º` compatibility-
decomposes to `o`, `ª` to `a`, `°` has no decomposition and is
dropped); any other non-ASCII character is dropped, matching
`errors="ignore"` for characters without an ASCII decomposition. -/

def foldTable : List (Char × List Char) :=
  [('á', ['a']), ('é', ['e']), ('í', ['i']), ('ó', ['o']), ('ú', ['u']),
   ('Á', ['A']), ('É', ['E']), ('Í', ['I']), ('Ó', ['O']), ('Ú', ['U']),
   ('ñ', ['n']), ('Ñ', ['N']), ('ü', ['u']), ('Ü', ['U']),
   ('º', ['o']), ('ª', ['a']), ('°', [])]

def asciiFold (c : Char) : List Char :=
  if c.toNat < 128 then [c]
  else
    match foldTable.find? (fun p => p.1 = c) with
    | some p => p.2
    | none => []

/-- Characters kept verbatim by `re.sub(r"[^a-z0-9]+", "_", ·)`. -/
def isLowAl (c : Char) : Bool :=
  ('a' ≤ c && c ≤ 'z') || isDigitC c

/-- `re.sub(r"[^a-z0-9]+", "_", ·)`: each maximal run of other
characters becomes a single underscore.  The flag records whether a
run is in progress. -/
def collapseAux : Bool → List Char → List Char
  | _, [] => []
  | inRun, c :: t =>
    if isLowAl c then c :: collapseAux false t
    else
      match inRun with
      | true => collapseAux true t
      | false => '_' :: collapseAux true t

/-- `.strip("_")`. -/
def stripUnderscoresL (l : List Char) : List Char :=
  ((l.dropWhile (fun c => c = '_')).reverse.dropWhile (fun c => c = '_')).reverse

/-- Phase-2 `_normalize`: NFKD-fold to ASCII, lowercase, collapse
non-alphanumeric runs to single underscores, strip edge
underscores. -/
def normalizeP2 (s : String) : String :=
  if s = "" then ""
  else
    String.mk (stripUnderscoresL
      (collapseAux false ((List.flatten (s.data.map asciiFold)).map Char.toLower)))

/-! ## Column mapping (phase-2, with the phase-1 settings) -/

/-- `COLUMNAS_IGNORAR` from the phase-1 `config/settings.py`. -/
def COLUMNAS_IGNORAR : List String :=
  ["n°", "nro", "nº", "n", "#", "numero", "número", "item", "orden", "nro.", "n°."]

/-- `COLUMNAS_MAPEO` from the phase-1 `config/settings.py`, in
insertion order. -/
def COLUMNAS_MAPEO : List (String × List String) :=
  [("nacionalidad",
    ["nacionalidad", "pais", "país", "country", "nation", "nacion", "nación"]),
   ("procedencia",
    ["procedencia", "origen", "ciudad_origen", "from", "domicilio",
     "direccion", "dirección", "ciudad"]),
   ("apellido_nombre",
    ["apellido_y_nombre", "apellido/nombre", "apellido_nombre",
     "apellido_y_nombres", "apellidos_y_nombre",
     "apellidos_y_nombres", "nombre_y_apellido",
     "nombre_apellido", "nombres_y_apellido"]),
   ("apellido", ["apellido", "apellidos", "last_name", "surname"]),
   ("nombre", ["nombre", "nombres", "first_name", "name"]),
   ("dni",
    ["dni", "documento", "nro_documento", "document",
     "d.n.i", "d.n.i.", "n°_doc", "nro_doc", "n_doc",
     "n°_documento", "nº_doc", "nº_documento",
     "numero_documento", "número_documento", "numero_doc",
     "n°doc", "n°_de_doc", "nro._doc", "nro._documento",
     "dni/pasaporte", "dni_/_pasaporte", "dni_o_pasaporte",
     "d.n.i._/_pas.", "d.n.i._/_pas", "dni_/_pas.", "dni_/_pas",
     "dni/pas", "d.n.i./pas.", "d.n.i./pas", "d.n.i./pasaporte",
     "dni/pas.", "d.n.i_/_pas", "dni_pas"]),
   ("pasaporte",
    ["pasaporte", "passport", "nro_pasaporte", "n°_pasaporte", "nº_pasaporte"]),
   ("edad", ["edad", "age", "años", "edades"]),
   ("fecha_nacimiento",
    ["fecha_nacimiento", "fecha_de_nacimiento", "nacimiento",
     "fecha_de_nac.", "fecha_de_nac", "fecha_nac", "fecha_nac.",
     "f._nac.", "f._nac", "fec._nac.", "fec._nac",
     "fec._nacimiento", "f.nac", "f.nac.", "fec.nac",
     "fec.nac.", "birth_date", "date_of_birth",
     "fch_nac", "fch._nac", "fch._nac."]),
   ("profesion",
    ["profesion", "profesión", "ocupacion", "ocupación",
     "profession", "occupation", "prof", "prof."]),
   ("establecimiento",
    ["hotel", "establecimiento", "alojamiento",
     "hostal", "pension", "pensión", "hospedaje",
     "hosteria", "hostería", "apart", "apart_hotel",
     "motel", "residencial", "posada"]),
   ("habitacion",
    ["habitacion", "habitación", "room",
     "nro_habitacion", "nro_habitación", "cuarto",
     "n°_hab", "n°_hab.", "nº_hab", "nro._hab",
     "n°_habitacion", "n°_habitación"]),
   ("destino", ["destino", "destination", "hacia", "a_donde", "destino_a"]),
   ("vehiculo",
    ["vehiculo", "vehículo", "vehicle", "auto", "coche",
     "vehic", "vehic.", "patente", "dominio",
     "datos_vehiculo", "datos_vehículo"]),
   ("telefono",
    ["telefono", "teléfono", "phone",
     "celular", "mobile", "nro_telefono", "nro_teléfono",
     "n°_tel", "n°_tel.", "nº_tel", "contacto"]),
   ("fecha_entrada",
    ["fecha_entrada", "ingreso", "check_in", "entrada",
     "checkin", "fecha_ingreso", "f._entrada", "f._ingreso",
     "fecha_de_entrada", "fecha_de_ingreso",
     "fec._entrada", "fec._ingreso",
     "f.entrada", "f.ingreso", "fec.entrada", "fec.ingreso"]),
   ("fecha_salida",
    ["fecha_salida", "egreso", "check_out", "salida",
     "checkout", "fecha_egreso", "f._salida", "f._egreso",
     "fecha_de_salida", "fecha_de_egreso",
     "fec._salida", "fec._egreso",
     "f.salida", "f.egreso", "fec.salida", "fec.egreso"])]

/-- Python substring test `n in h`. -/
def isInfixB (n h : List Char) : Bool :=
  match h with
  | [] => n.isEmpty
  | _ :: t => (h.take n.length = n) || isInfixB n t

/-- Phase-2 `_is_ignorable` on an already-normalised column name. -/
def isIgnorable (colNorm : String) : Bool :=
  COLUMNAS_IGNORAR.any (fun p => normalizeP2 p = colNorm)
  || colNorm = "" || allDigits colNorm.data

/-- Phase-2 `_map_column`: normalise, drop ignorable columns, then an
exact-alias pass over all fields followed by a substring pass. -/
def mapColumn (colName : String) : Option String :=
  let normalized := normalizeP2 colName
  if normalized = "" || isIgnorable normalized then none
  else
    match COLUMNAS_MAPEO.findSome? (fun fa =>
        if fa.2.any (fun al => normalizeP2 al = normalized) then some fa.1 else none) with
    | some f => some f
    | none =>
      COLUMNAS_MAPEO.findSome? (fun fa =>
        if fa.2.any (fun al =>
            isInfixB (normalizeP2 al).data normalized.data
            || isInfixB normalized.data (normalizeP2 al).data) then some fa.1 else none)

/-- Phase-2 `detectar_mapeo` on the list of column headers: first
mapped header wins each internal field. -/
def detectarMapeo (headers : List String) : List (String × String) :=
  (headers.foldl (fun acc col =>
    let colStr := pyStrip col
    match mapColumn colStr with
    | some campo =>
      if acc.2.contains campo then acc
      else (acc.1 ++ [(colStr, campo)], acc.2 ++ [campo])
    | none => acc) (([] : List (String × String)), ([] : List String))).1

/-- Phase-2 `obtener_columnas_faltantes`: required canonical-field
groups absent from the mapping. -/
def obtenerColumnasFaltantes (mapeo : List (String × String)) : List String :=
  let campos := mapeo.map (fun p => p.2)
  let tieneNombreCompleto := campos.contains "apellido_nombre"
  let tieneNombreSeparado := campos.contains "apellido" && campos.contains "nombre"
  (if !(tieneNombreCompleto || tieneNombreSeparado) then
    ["apellido_nombre (o apellido + nombre separados)"] else [])
  ++ (if !(campos.contains "dni" || campos.contains "pasaporte") then
    ["dni o pasaporte"] else [])
  ++ (if !campos.contains "fecha_entrada" then ["fecha_entrada (entrada)"] else [])

/-! ## Phase-2 row processing -/

/-- A raw spreadsheet row: column name to cell text, in column order.
Missing columns are simply absent; `None`/`NaN` cells are modelled as
absent keys (`get_val` maps both to `None`). -/
abbrev RawRow := List (String × String)

/-- Phase-2 `_procesar_fila.get_val`: column looked up through the
inverted mapping `campo_a_col`. -/
def getValP2 (cm : List (String × String)) (row : RawRow) (campo : String) : Option String :=
  match assq cm campo with
  | none => none
  | some col => assq row col

/-- The record dict returned by phase-2 `_procesar_fila` (dates
already stringified by `str(...)`, exactly as in the source). -/
structure Registro where
  nacionalidad : String
  procedencia : String
  apellido : String
  nombre : String
  dni : Option String
  pasaporte : Option String
  fechaNacimiento : Option String
  profesion : Option String
  telefono : Option String
  establecimiento : Option String
  habitacion : String
  edad : Option Int
  fechaEntrada : String
  fechaSalida : Option String
  destino : Option String
  vehiculoTiene : Bool
  vehiculoDatos : Option String
deriving DecidableEq, Repr

/-- `x or default` for an optional string cell. -/
def orDflt (v : Option String) (d : String) : String :=
  match v with
  | some s => if s ≠ "" then s else d
  | none => d

/-- `if val: val = sanitizar_texto(str(val))` on an optional cell. -/
def optSanitize (v : Option String) : Option String :=
  v.map (fun s => if s ≠ "" then sanitizarTexto s else s)

/-- The age computation of phase-2 `_procesar_fila`: reference year
minus birth year, minus one when the reference month/day pair
precedes the birth month/day pair. -/
def computeEdad (ref b : Date) : Int :=
  let base : Int := (ref.year : Int) - (b.year : Int)
  if ref.month < b.month ∨ (ref.month = b.month ∧ ref.day < b.day) then base - 1 else base

def msgSinDoc (n : Nat) : String :=
  "Fila " ++ toString n ++ ": sin documento válido (DNI o Pasaporte)"

def msgFechaEntrada (n : Nat) : String :=
  "Fila " ++ toString n ++ ": fecha de entrada inválida o ausente"

/-- The name-resolution block of phase-2 `_procesar_fila`: the
combined split when an `apellido_nombre` column is mapped, overridden
by truthy separate `apellido` / `nombre` column values. -/
def nombresP2 (cm : List (String × String)) (row : RawRow) : String × String :=
  let keys := cm.map (fun p => p.1)
  let split0 :=
    if keys.contains "apellido_nombre" then
      splitApellidoNombreVal (getValP2 cm row "apellido_nombre")
    else ("", "")
  let apellido :=
    if keys.contains "apellido" then
      match getValP2 cm row "apellido" with
      | some v => if v ≠ "" then sanitizarTexto v else split0.1
      | none => split0.1
    else split0.1
  let nombre :=
    if keys.contains "nombre" then
      match getValP2 cm row "nombre" with
      | some v => if v ≠ "" then sanitizarTexto v else split0.2
      | none => split0.2
    else split0.2
  (apellido, nombre)

/-- The document-resolution block of phase-2 `_procesar_fila`:
`_parse_documento` on the `dni` column, with the passport slot of a
truthy `pasaporte` column value taking precedence. -/
def documentosP2 (cm : List (String × String)) (row : RawRow) :
    Option String × Option String :=
  let keys := cm.map (fun p => p.1)
  let docs0 :=
    if keys.contains "dni" then parseDocumentoVal (getValP2 cm row "dni")
    else (none, none)
  let pasaporte :=
    if keys.contains "pasaporte" then
      match getValP2 cm row "pasaporte" with
      | some v =>
        if v ≠ "" then
          match (parseDocumento v).2 with
          | some p => some p
          | none => docs0.2
        else docs0.2
      | none => docs0.2
    else docs0.2
  (docs0.1, pasaporte)

/-- Phase-2 `_procesar_fila`.  `cm` is `campo_a_col` (internal field →
spreadsheet column), `filaNum` the 2-based row number, `today` the
value of `date.today()`.  Returns `.ok none` for a row skipped as
blank, `.error` for a raised `ValueError`. -/
def procesarFila (cm : List (String × String)) (row : RawRow) (filaNum : Nat) (today : Date) :
    Except String (Option Registro) :=
  let apellido := (nombresP2 cm row).1
  let nombre := (nombresP2 cm row).2
  if apellido = "" ∧ nombre = "" then .ok none
  else
    let dni := (documentosP2 cm row).1
    let pasaporte := (documentosP2 cm row).2
    if dni = none ∧ pasaporte = none then .error (msgSinDoc filaNum)
    else
      let fe := parseDateVal (getValP2 cm row "fecha_entrada")
      let fs := parseDateVal (getValP2 cm row "fecha_salida")
      match fe with
      | none => .error (msgFechaEntrada filaNum)
      | some fecha =>
        let edad0 := parseEdadVal (getValP2 cm row "edad")
        let fnac := parseDateVal (getValP2 cm row "fecha_nacimiento")
        -- `ref = fecha_entrada or date.today()`: dates are always
        -- truthy, and `fecha_entrada` is non-None on this branch, so
        -- the reference is the check-in date.
        let ref := match some fecha with | some d => d | none => today
        let edad :=
          match edad0, fnac with
          | none, some b => some (computeEdad ref b)
          | e, _ => e
        .ok (some
          { nacionalidad := sanitizarTexto (orDflt (getValP2 cm row "nacionalidad") "Argentina")
            procedencia := sanitizarTexto (orDflt (getValP2 cm row "procedencia") "S/D")
            apellido := apellido
            nombre := nombre
            dni := dni
            pasaporte := pasaporte
            fechaNacimiento := fnac.map dateToStr
            profesion := optSanitize (getValP2 cm row "profesion")
            telefono := optSanitize (getValP2 cm row "telefono")
            establecimiento := optSanitize (getValP2 cm row "establecimiento")
            habitacion :=
              orDflt (optSanitize (getValP2 cm row "habitacion")) "S/N"
            edad := edad
            fechaEntrada := dateToStr fecha
            fechaSalida := fs.map dateToStr
            destino := optSanitize (getValP2 cm row "destino")
            vehiculoTiene :=
              match getValP2 cm row "vehiculo" with
              | some v => v ≠ ""
              | none => false
            vehiculoDatos :=
              match getValP2 cm row "vehiculo" with
              | some v => if v ≠ "" then some (sanitizarTexto v) else none
              | none => none })

/-- An entry of the phase-2 error list: row number, the raw values of
the mapped columns, and the message. -/
structure ErrP2 where
  fila : Nat
  datos : List (String × String)
  errores : List String
deriving DecidableEq, Repr

/-- `campo_a_col = {campo: col_excel for col_excel, campo in
mapeo.items()}`: Python's dict comprehension keeps the last binding of
a repeated field, modelled by reversing before the first-match
lookup. -/
def campoACol (mapeo : List (String × String)) : List (String × String) :=
  (mapeo.map (fun p => (p.2, p.1))).reverse

/-- Phase-2 `procesar_dataframe`: iterate rows (2-based numbering,
row 1 is the header), collect returned records and per-row errors. -/
def procesarDataframe (mapeo : List (String × String)) (rows : List RawRow) (today : Date) :
    List Registro × List ErrP2 :=
  rows.enum.foldl (fun acc ir =>
    let fila := ir.1 + 2
    match procesarFila (campoACol mapeo) ir.2 fila today with
    | .ok (some r) => (acc.1 ++ [r], acc.2)
    | .ok none => acc
    | .error e =>
      (acc.1, acc.2 ++ [⟨fila, mapeo.map (fun p => (p.1, (assq ir.2 p.1).getD "")), [e]⟩]))
    (([] : List Registro), ([] : List ErrP2))

/-- The mapping/processing core of `ImportController.importar`: after
the mapping is fixed (auto-detected or overridden), the
required-fields check runs; a non-empty missing list raises
`MissingColumnsError` before `procesar_dataframe` is called, so no row
is processed and nothing is returned as valid. -/
def importarNucleo (mapeo : List (String × String)) (rows : List RawRow) (today : Date) :
    Except (List String) (List Registro × List ErrP2) :=
  let faltantes := obtenerColumnasFaltantes mapeo
  if faltantes ≠ [] then .error faltantes
  else .ok (procesarDataframe mapeo rows today)

/-! ## The checked-in multi-sheet parser: `src/utils/excel_parser.py`

`ExcelParser._parse_date` tries its explicit formats and then falls
back to `pd.to_datetime`.  The pandas fallback is a large external
parser; it is kept abstract as a function parameter `fb`, so every
theorem below holds for the real fallback whatever it returns. -/

/-- The format list of `ExcelParser._parse_date`, in source order:
`%Y-%m-%d`, `%d/%m/%Y`, `%d-%m-%Y`, `%d.%m.%Y`, `%m/%d/%Y`,
`%Y/%m/%d`. -/
def formatosEx : List DateFmt :=
  [⟨.ymd, '-', true⟩, ⟨.dmy, '/', true⟩, ⟨.dmy, '-', true⟩,
   ⟨.dmy, '.', true⟩, ⟨.mdy, '/', true⟩, ⟨.ymd, '/', true⟩]

/-- `ExcelParser._parse_date`: `None`/empty yields `None`; otherwise
the explicit formats are tried on the stripped value in order, and
only if none matches is the pandas fallback `fb` consulted (on the
unstripped value, as in the source). -/
def excelParseDate (fb : String → Option Date) : Option String → Option Date
  | none => none
  | some s =>
    if s = "" then none
    else
      match firstMatch formatosEx (pyStrip s) with
      | some d => some d
      | none => fb s

/-- `ExcelParser._get_value`: the stripped cell text, or `None` when
the column is absent or the text strips to empty. -/
def exGetValue (row : RawRow) (field : String) : Option String :=
  match assq row field with
  | none => none
  | some v => if pyStrip v = "" then none else some (pyStrip v)

/-- `text.split(None, 1)`: first whitespace-delimited word and the
(leading-whitespace-trimmed) remainder, applied to already-stripped
text. -/
def splitNone1 (l : List Char) : List Char × Option (List Char) :=
  let w := l.takeWhile (fun c => !isPyWs c)
  let rest := (l.drop w.length).dropWhile isPyWs
  (w, if rest.isEmpty then none else some rest)

/-- The combined-name branch of `ExcelParser._process_row`: the value
of a column named `apellido_nombre`, split either at the first comma
or at the first whitespace run (first word → surname, remainder →
given name).  Returns the (presence-tracking) `apellido`/`nombre`
entries of the `data` dict. -/
def nameStage (row : RawRow) : Option String × Option String :=
  match exGetValue row "apellido_nombre" with
  | none => (none, none)
  | some v =>
    let texto := pyStrip v
    if texto.data.contains ',' then
      let p := splitFirst ',' texto.data
      (some (sanitizarTexto (String.mk (pyStripL p.1))),
       some (if (pyStripL p.2).isEmpty then ""
             else sanitizarTexto (String.mk (pyStripL p.2))))
    else
      let p := splitNone1 texto.data
      (some (if p.1.isEmpty then "" else sanitizarTexto (String.mk p.1)),
       some (match p.2 with
             | some r => sanitizarTexto (String.mk r)
             | none => ""))

/-- The per-field loop of `ExcelParser._process_row` for `apellido` /
`nombre`: keep a truthy combined-split value, otherwise take the
sanitised column value when present. -/
def overrideName (base : Option String) (col : Option String) : Option String :=
  match base with
  | some s =>
    if s ≠ "" then base
    else
      match col with
      | some v => some (sanitizarTexto v)
      | none => base
  | none =>
    match col with
    | some v => some (sanitizarTexto v)
    | none => none

/-- Cleaning used in the `dni` branches of `ExcelParser._process_row`:
`strip` then remove `.`, `-`, ` `, then the (never-firing, see
`stripDot0_cleanDoc`) trailing-`".0"` check. -/
def cleanDocEx (s : String) : List Char :=
  stripDot0 (cleanDoc s)

/-- Document resolution of `ExcelParser._process_row`: the combined
branch when only a `dni` column value is present, separate handling
otherwise, then the any-column fallback scan for a bare 7–8 digit
token. -/
def docStage (row : RawRow) : Option String × Option String :=
  let dniV := exGetValue row "dni"
  let pasV := exGetValue row "pasaporte"
  let direct : Option String × Option String :=
    match dniV, pasV with
    | some d, none =>
      let cleaned := cleanDocEx d
      if allDigits cleaned && 7 ≤ cleaned.length && cleaned.length ≤ 8 then
        (some (String.mk cleaned), none)
      else if allAlnum cleaned && 5 ≤ cleaned.length && cleaned.length ≤ 15 then
        (none, some (String.mk (cleaned.map Char.toUpper)))
      else (none, none)
    | dv, pv =>
      let dniR :=
        match dv with
        | some d =>
          let cleaned := cleanDocEx d
          if allDigits cleaned && 7 ≤ cleaned.length && cleaned.length ≤ 8 then
            some (String.mk cleaned)
          else none
        | none => none
      let pasR :=
        match pv with
        | some p =>
          let cp := ((pyStripL p.data).map Char.toUpper).filter (fun c => c ≠ ' ')
          if allAlnum cp && 5 ≤ cp.length && cp.length ≤ 15 then
            some (String.mk cp)
          else none
        | none => none
      (dniR, pasR)
  if direct.1 = none ∧ direct.2 = none then
    let scanned := row.findSome? (fun kv =>
      if (match kv.1.data with | [] => false | c :: _ => c = '_') then none
      else
        let val := cleanDocEx kv.2
        if allDigits val && 7 ≤ val.length && val.length ≤ 8 then
          some (String.mk val)
        else none)
    (scanned, none)
  else direct

/-- The record dict returned by `ExcelParser._process_row` (with the
sheet tag `_hoja_origen` that `parse` adds afterwards). -/
structure RegistroEx where
  apellido : String
  nombre : String
  nacionalidad : String
  procedencia : String
  habitacion : String
  profesion : Option String
  establecimiento : Option String
  destino : Option String
  telefono : Option String
  dni : Option String
  pasaporte : Option String
  edad : Option Int
  fechaNacimiento : Option String
  fechaEntrada : String
  fechaSalida : Option String
  vehiculoTiene : Bool
  vehiculoDatos : Option String
  hoja : Option String
deriving DecidableEq, Repr

/-- Free-text field of the `_process_row` loop: sanitised for the
four person fields, merely stripped for the rest. -/
def textField (row : RawRow) (f : String) (sanitize : Bool) : Option String :=
  match exGetValue row f with
  | some v => some (if sanitize then sanitizarTexto v else pyStrip v)
  | none => none

def msgSinDocEx : String :=
  "Sin documento válido (DNI o Pasaporte)"

/-- The single-quote character, used by the Python f-strings below. -/
def sq : String :=
  String.singleton (Char.ofNat 39)

def msgObligatorio (f : String) : String :=
  "Campo obligatorio " ++ sq ++ f ++ sq ++ " vacío"

/-- The `apellido` / `nombre` entries of `data` after the combined
split and the text-field loop of `ExcelParser._process_row`. -/
def nombresEx (row : RawRow) : Option String × Option String :=
  (overrideName (nameStage row).1 (exGetValue row "apellido"),
   overrideName (nameStage row).2 (exGetValue row "nombre"))

/-- `ExcelParser._process_row`.  `fb` is the pandas date fallback,
`today` the value of `date.today()`.  `.ok none` models `return None`
(row skipped), `.error` a raised `ValueError`. -/
def processRow (fb : String → Option Date) (today : Date) (row : RawRow) :
    Except String (Option RegistroEx) :=
  let aF := (nombresEx row).1
  let nF := (nombresEx row).2
  if aF = none ∧ nF = none then .ok none
  else
    let docs := docStage row
    if docs.1 = none ∧ docs.2 = none then
      if aF ≠ none ∧ nF ≠ none then .error msgSinDocEx
      else .ok none
    else
      if aF.getD "" = "" then .error (msgObligatorio "apellido")
      else if nF.getD "" = "" then .error (msgObligatorio "nombre")
      else
        let fe := (excelParseDate fb (exGetValue row "fecha_entrada")).getD today
        .ok (some
          { apellido := aF.getD ""
            nombre := nF.getD ""
            nacionalidad := (textField row "nacionalidad" true).getD "Argentina"
            procedencia := (textField row "procedencia" true).getD "Sin especificar"
            habitacion := (textField row "habitacion" false).getD "S/N"
            profesion := textField row "profesion" false
            establecimiento := textField row "establecimiento" false
            destino := textField row "destino" false
            telefono := textField row "telefono" false
            dni := docs.1
            pasaporte := docs.2
            edad := parseEdadVal (exGetValue row "edad")
            fechaNacimiento :=
              (excelParseDate fb (exGetValue row "fecha_nacimiento")).map dateToStr
            fechaEntrada := dateToStr fe
            fechaSalida :=
              (excelParseDate fb (exGetValue row "fecha_salida")).map dateToStr
            vehiculoTiene := (textField row "vehiculo" false).isSome
            vehiculoDatos := textField row "vehiculo" false
            hoja := none })

/-! ## `ExcelParser.parse`: row loop with intra-batch duplicate
detection -/

/-- A row tagged with its sheet of origin and its `_fila_original`
number. -/
structure TaggedRow where
  cells : RawRow
  hoja : String
  fila : Nat
deriving DecidableEq, Repr

/-- `f"Hoja '{hoja}' fila {fila}" if hoja else f"Fila {fila}"`. -/
def rowLabel (hoja : String) (fila : Nat) : String :=
  if hoja ≠ "" then "Hoja " ++ sq ++ hoja ++ sq ++ " fila " ++ toString fila
  else "Fila " ++ toString fila

/-- `data.get("dni") or data.get("pasaporte") or ""`. -/
def docKey (d : RegistroEx) : String :=
  match d.dni with
  | some s =>
    if s ≠ "" then s
    else match d.pasaporte with
         | some p => if p ≠ "" then p else ""
         | none => ""
  | none =>
    match d.pasaporte with
    | some p => if p ≠ "" then p else ""
    | none => ""

/-- The accumulator of the `ExcelParser.parse` row loop. -/
structure ParseAcc where
  valid : List RegistroEx
  errors : List (String × String)
  dups : List RegistroEx
  seen : List String
  skipped : Nat
deriving DecidableEq, Repr

/-- `if hoja: data["_hoja_origen"] = hoja`. -/
def stamp (d0 : RegistroEx) (hoja : String) : RegistroEx :=
  if hoja ≠ "" then { d0 with hoja := some hoja } else d0

/-- One iteration of the `ExcelParser.parse` row loop: process the
row, count skips, stamp the sheet tag, route intra-batch duplicate
document keys to the duplicates bucket, collect raised errors. -/
def parseStep (fb : String → Option Date) (today : Date) (st : ParseAcc) (t : TaggedRow) :
    ParseAcc :=
  let label := rowLabel t.hoja t.fila
  match processRow fb today t.cells with
  | .error e => { st with errors := st.errors ++ [(label, e)] }
  | .ok none => { st with skipped := st.skipped + 1 }
  | .ok (some d0) =>
    let d := stamp d0 t.hoja
    let key := docKey d
    if key ≠ "" ∧ st.seen.contains key then { st with dups := st.dups ++ [d] }
    else
      { st with
        valid := st.valid ++ [d]
        seen := if key ≠ "" then st.seen ++ [key] else st.seen }

/-- The `ExcelParser.parse` row loop over the concatenated tagged
rows. -/
def parseRows (fb : String → Option Date) (today : Date) (rows : List TaggedRow) : ParseAcc :=
  rows.foldl (parseStep fb today) ⟨[], [], [], [], 0⟩

/-! ## `ExcelParser._read_file`: per-sheet cleaning and tagging -/

/-- A fully blank row: every cell strips to empty (the
`str.strip().str.len().sum() > 0` filter; `dropna(how="all")` is a
no-op under `dtype=str, keep_default_na=False`). -/
def isBlankRow (r : RawRow) : Bool :=
  r.all (fun kv => pyStrip kv.2 = "")

/-- Header cleaning applied to every sheet:
`str(col).strip().lower().replace(" ", "_")` (ASCII lower). -/
def cleanHeader (s : String) : String :=
  String.mk (((pyStripL s.data).map Char.toLower).map (fun c => if c = ' ' then '_' else c))

/-- `_read_file` for one sheet: clean the headers, drop fully blank
rows, rename the mapped columns (`rename` is the per-sheet mapping
computed by `_auto_map_columns`, passed in as a function; the
properties proved below do not depend on it), then tag each surviving
row with the sheet name and `_fila_original = range(2, len+2)` —
i.e. consecutive numbering of the *surviving* rows.
`cleanRow` is the header cleaning and per-sheet renaming applied to
one row's column names (cell values untouched). -/
def cleanRow (rename : String → String) (r : RawRow) : RawRow :=
  r.map (fun kv => (rename (cleanHeader kv.1), kv.2))

def readSheetRows (name : String) (rename : String → String) (rows : List RawRow) :
    List TaggedRow :=
  let cleaned := rows.map (cleanRow rename)
  let kept := cleaned.filter (fun r => !isBlankRow r)
  kept.enum.map (fun ir => ⟨ir.2, name, ir.1 + 2⟩)

/-! ## Observation helpers used by the theorems -/

/-- A stand-in for the pandas date fallback in concrete evaluations.
It is only ever used where the fallback is provably not consulted
(the relevant cell is absent or matches an explicit format), or where
the property holds for every fallback. -/
def noFallback : String → Option Date :=
  fun _ => none

/-- The record a `_process_row` outcome contributes to the batch
(`None` and raised errors contribute nothing). -/
def emittedReg : Except String (Option RegistroEx) → Option RegistroEx
  | .ok (some d) => some d
  | _ => none

/-- The record a `_procesar_fila` outcome contributes. -/
def emittedP2 : Except String (Option Registro) → Option Registro
  | .ok (some d) => some d
  | _ => none

/-- The sheet-stamped records that `_process_row` emits for a list of
tagged rows, in order. -/
def emittedRows (fb : String → Option Date) (today : Date) (rows : List TaggedRow) :
    List RegistroEx :=
  rows.filterMap (fun t => (emittedReg (processRow fb today t.cells)).map (fun d => stamp d t.hoja))

/-- The labelled errors the `parse` row loop collects. -/
def errorsOf (fb : String → Option Date) (today : Date) (rows : List TaggedRow) :
    List (String × String) :=
  rows.filterMap (fun t =>
    match processRow fb today t.cells with
    | .error e => some (rowLabel t.hoja t.fila, e)
    | _ => none)

/-- The number of rows the `parse` row loop skips. -/
def skippedOf (fb : String → Option Date) (today : Date) (rows : List TaggedRow) : Nat :=
  (rows.filter (fun t =>
    match processRow fb today t.cells with
    | .ok none => true
    | _ => false)).length

/-- First occurrence of each non-empty document key, relative to an
already-seen key set — the records `parse` accepts as valid. -/
def keepFirstByKey (seen : List String) : List RegistroEx → List RegistroEx
  | [] => []
  | d :: t =>
    if docKey d ≠ "" ∧ seen.contains (docKey d) then keepFirstByKey seen t
    else d :: keepFirstByKey (if docKey d ≠ "" then seen ++ [docKey d] else seen) t

/-- Later occurrences of already-seen non-empty document keys — the
records `parse` routes to the duplicates bucket. -/
def dupsByKey (seen : List String) : List RegistroEx → List RegistroEx
  | [] => []
  | d :: t =>
    if docKey d ≠ "" ∧ seen.contains (docKey d) then d :: dupsByKey seen t
    else dupsByKey (if docKey d ≠ "" then seen ++ [docKey d] else seen) t

/-- The seen-key set after a list of emitted records. -/
def seenAfter (seen : List String) : List RegistroEx → List String
  | [] => seen
  | d :: t =>
    if docKey d ≠ "" ∧ seen.contains (docKey d) then seenAfter seen t
    else seenAfter (if docKey d ≠ "" then seen ++ [docKey d] else seen) t

/-- Number of records in a list carrying a given document key. -/
def countKey (k : String) (l : List RegistroEx) : Nat :=
  (l.filter (fun d => docKey d = k)).length

/-- The explicit-format ordering exactly as the spec words it:
day/month/4-digit-year with `/`, `-`, `.`; then 4-digit-year/month/
day; then the day/month/2-digit-year variants; then
month/day/4-digit-year. -/
def formatosSpecOrder : List DateFmt :=
  [⟨.dmy, '/', true⟩, ⟨.dmy, '-', true⟩, ⟨.dmy, '.', true⟩,
   ⟨.ymd, '-', true⟩, ⟨.ymd, '/', true⟩,
   ⟨.dmy, '/', false⟩, ⟨.dmy, '-', false⟩, ⟨.dmy, '.', false⟩,
   ⟨.mdy, '/', true⟩]

/-- Phase-2 `_parse_date` with its format list replaced by the
spec-order list — the refinement target compared against
`parseDateStr`. -/
def parseDateStrSpecOrder (s : String) : Option Date :=
  let t := pyStrip s
  if t = "" ∨ toLowerStr t ∈ badDateTokens then none
  else firstMatch formatosSpecOrder t

/-- The date parser exactly as the spec words it: attempt the
spec-order explicit formats, then a generic fallback parser `fb`,
returning the first successful match or `None`. -/
def parseDateSpecFallback (fb : String → Option Date) (s : String) : Option Date :=
  match firstMatch formatosSpecOrder s with
  | some d => some d
  | none => fb s

/-- No two adjacent underscores. -/
def noDblUnd : List Char → Bool
  | [] => true
  | [_] => true
  | a :: b :: t => !(a = '_' && b = '_') && noDblUnd (b :: t)

/-- The normal forms of `_normalize`: lowercase-alphanumeric and
underscore characters, no doubled underscore, no edge underscore. -/
def isNormalForm (l : List Char) : Bool :=
  l.all (fun c => isLowAl c || c = '_') && noDblUnd l
  && l.head?.all (fun c => c ≠ '_') && l.getLast?.all (fun c => c ≠ '_')

/-! ## Helper lemmas -/

/-- The trailing-`".0"` check of the document cleaners runs after
every dot has been removed, so it never fires. -/
lemma stripDot0_cleanDoc (s : String) : stripDot0 (cleanDoc s) = cleanDoc s := by
  unfold stripDot0
  split
  case isTrue h =>
    exfalso
    have hm : '.' ∈ (cleanDoc s).reverse.take 2 := by rw [h]; simp
    have hm2 : '.' ∈ cleanDoc s := List.mem_reverse.mp (List.mem_of_mem_take hm)
    have := List.of_mem_filter hm2
    simp at this
  case isFalse h => rfl

/-- `split(sep, 1)` splits at the first occurrence of the
separator. -/
lemma splitFirst_eq (sep : Char) (l : List Char) :
    splitFirst sep l =
      (l.takeWhile (fun c => c ≠ sep), (l.dropWhile (fun c => c ≠ sep)).drop 1) := by
  induction l with
  | nil => rfl
  | cons c t ih =>
    by_cases h : c = sep
    · subst h
      simp [splitFirst, List.takeWhile_cons, List.dropWhile_cons]
    · simp [splitFirst, h, List.takeWhile_cons, List.dropWhile_cons, ih]

/-! ## C4 — document cleaning and classification -/

/-- C4 (amended): phase-2 `_parse_documento` strips spaces, dots and
dashes from the raw value; the trailing-`".0"` removal is checked only
after the dots are already gone, so it never applies; the cleaned
value classifies as `national_id` when it is all digits of length 7–8,
and otherwise as an uppercased `passport` when it is alphanumeric of
length 5–15.  `"35.123.456"` classifies as national_id `"35123456"`
and `"aa1234567"` as passport `"AA1234567"`, while `"12345678.0"`
cleans to the nine-digit `"123456780"` and classifies as passport
`"123456780"`, not as national_id `"12345678"`. -/
theorem c4_document_classification :
    (∀ s : String, stripDot0 (cleanDoc s) = cleanDoc s)
    ∧ (∀ s : String,
        ¬ (pyStrip s = "" ∨ toLowerStr (pyStrip s) ∈ ["nan", "none"]) →
        (allDigits (cleanDoc s) = true ∧ 7 ≤ (cleanDoc s).length ∧ (cleanDoc s).length ≤ 8 →
          parseDocumento s = (some (String.mk (cleanDoc s)), none))
        ∧ (¬ (allDigits (cleanDoc s) = true ∧ 7 ≤ (cleanDoc s).length ∧ (cleanDoc s).length ≤ 8) →
            allAlnum (cleanDoc s) = true ∧ 5 ≤ (cleanDoc s).length ∧ (cleanDoc s).length ≤ 15 →
            parseDocumento s = (none, some (String.mk ((cleanDoc s).map Char.toUpper)))))
    ∧ parseDocumento "35.123.456" = (some "35123456", none)
    ∧ parseDocumento "aa1234567" = (none, some "AA1234567")
    ∧ parseDocumento "12345678.0" = (none, some "123456780") := by
  refine ⟨stripDot0_cleanDoc, ?_, by decide, by decide, by decide⟩
  intro s hguard
  constructor
  · intro hd
    simp only [parseDocumento, stripDot0_cleanDoc]
    rw [if_neg hguard, if_pos]
    simp [hd.1, hd.2.1, hd.2.2]
  · intro hnd ha
    simp only [parseDocumento, stripDot0_cleanDoc]
    rw [if_neg hguard, if_neg, if_pos]
    · simp [ha.1, ha.2.1, ha.2.2]
    · simp only [Bool.and_eq_true, decide_eq_true_eq]
      intro h
      exact hnd ⟨h.1.1, h.1.2, h.2⟩

/-- C4 counterexample: the claim states that `"12345678.0"` classifies
as national_id `"12345678"`; `_parse_documento` actually removes the
dot first, so the trailing-`".0"` removal never applies, and the
nine-digit `"123456780"` classifies as a passport. -/
theorem c4_counterexample :
    parseDocumento "12345678.0" = (none, some "123456780")
    ∧ ¬ parseDocumento "12345678.0" = (some "12345678", none) := by
  exact ⟨by decide, by decide⟩

/-- C4 witness: the classification theorem applied to the two example
documents. -/
theorem c4_witness :
    parseDocumento "35.123.456" = (some (String.mk (cleanDoc "35.123.456")), none)
    ∧ parseDocumento "aa1234567" =
        (none, some (String.mk ((cleanDoc "aa1234567").map Char.toUpper))) := by
  exact ⟨(c4_document_classification.2.1 "35.123.456" (by decide)).1 (by decide),
         (c4_document_classification.2.1 "aa1234567" (by decide)).2 (by decide) (by decide)⟩

/-! ## C2 — combined-name splitting -/

/-- C2 (amended): for phase-2 `_split_apellido_nombre`, on a value
whose sanitised text is non-empty: with a comma, the text left of the
first comma (stripped) is the surname and the text right of it the
given name; without a comma and with two or more whitespace tokens,
the last token is the given name and the preceding tokens joined are
the surname, while a single token becomes the surname with an empty
given name.  In particular "García, Juan Pablo" yields ("García",
"Juan Pablo") and "García Juan Pablo" yields ("García Juan",
"Pablo").  The combined-name branch of `ExcelParser._process_row`
instead takes the first token as surname and the remainder as given
name (see the counterexample). -/
theorem c2_split_reglas :
    (∀ v : String, sanitizarTexto v ≠ "" →
      (sanitizarTexto v).data.contains ',' = true →
      splitApellidoNombre v =
        (String.mk (pyStripL ((sanitizarTexto v).data.takeWhile (fun c => c ≠ ','))),
         String.mk (pyStripL (((sanitizarTexto v).data.dropWhile (fun c => c ≠ ',')).drop 1))))
    ∧ (∀ (v : String) (w1 w2 : List Char) (ws : List (List Char)),
        sanitizarTexto v ≠ "" →
        (sanitizarTexto v).data.contains ',' = false →
        splitWs (sanitizarTexto v).data = w1 :: w2 :: ws →
        splitApellidoNombre v =
          (String.mk (joinSpace ((w1 :: w2 :: ws).dropLast)),
           String.mk ((w1 :: w2 :: ws).getLastD [])))
    ∧ (∀ (v : String) (w : List Char),
        sanitizarTexto v ≠ "" →
        (sanitizarTexto v).data.contains ',' = false →
        splitWs (sanitizarTexto v).data = [w] →
        splitApellidoNombre v = (String.mk w, ""))
    ∧ splitApellidoNombre "García, Juan Pablo" = ("García", "Juan Pablo")
    ∧ splitApellidoNombre "García Juan Pablo" = ("García Juan", "Pablo") := by
  refine ⟨?_, ?_, ?_, by decide, by decide⟩
  · intro v hne hc
    simp only [splitApellidoNombre]
    rw [if_neg hne, if_pos hc, splitFirst_eq]
  · intro v w1 w2 ws hne hc hsplit
    simp only [splitApellidoNombre]
    rw [if_neg hne, if_neg (by rw [hc]; simp), hsplit]
    cases ws with
    | nil => simp [joinSpace, List.getLastD]
    | cons w3 ws2 => rfl
  · intro v w hne hc hsplit
    simp only [splitApellidoNombre]
    rw [if_neg hne, if_neg (by rw [hc]; simp), hsplit]

/-- C2 counterexample: the claim states "García Juan Pablo" splits to
surname "García Juan" and given name "Pablo"; the combined-name branch
of `ExcelParser._process_row` splits it first-token-wise into
("García", "Juan Pablo") and emits the record that way. -/
theorem c2_counterexample :
    (emittedReg (processRow noFallback ⟨2024, 5, 10⟩
        [("apellido_nombre", "García Juan Pablo"), ("dni", "35.123.456"),
         ("fecha_entrada", "01/02/2024")])).map
      (fun d => (d.apellido, d.nombre)) = some ("García", "Juan Pablo")
    ∧ ("García", "Juan Pablo") ≠ ("García Juan", "Pablo") := by
  exact ⟨by decide, by decide⟩

/-- C2 witness: the splitting rules applied to the two example
values. -/
theorem c2_witness :
    splitApellidoNombre "García, Juan Pablo" = ("García", "Juan Pablo")
    ∧ splitApellidoNombre "García Juan Pablo" =
        (String.mk (joinSpace (["García".data, "Juan".data, "Pablo".data].dropLast)),
         String.mk (["García".data, "Juan".data, "Pablo".data].getLastD [])) := by
  exact ⟨c2_split_reglas.2.2.2.1,
         c2_split_reglas.2.1 "García Juan Pablo" "García".data "Juan".data ["Pablo".data]
           (by decide) (by decide) (by decide)⟩

/-! ## C3 — required-fields check before row processing -/

/-- C3: `obtener_columnas_faltantes` is empty exactly when the mapped
field set contains the combined-name field or both separate name
fields, a `dni` or `pasaporte` field, and the check-in-date field;
each missing group is named by its own entry of the aggregate list;
when the list is non-empty the import core raises it as the aggregate
missing-columns error before any row is processed, so nothing is
returned as valid.  The headers `["Apellido", "Nombre", "DNI", "Fecha
Entrada"]` map to the four fields and satisfy the check; the same
headers without a document column fail it. -/
theorem c3_required_fields :
    (∀ mapeo : List (String × String),
      obtenerColumnasFaltantes mapeo = [] ↔
        (((mapeo.map Prod.snd).contains "apellido_nombre" = true
          ∨ ((mapeo.map Prod.snd).contains "apellido" = true
             ∧ (mapeo.map Prod.snd).contains "nombre" = true))
         ∧ ((mapeo.map Prod.snd).contains "dni" = true
            ∨ (mapeo.map Prod.snd).contains "pasaporte" = true)
         ∧ (mapeo.map Prod.snd).contains "fecha_entrada" = true))
    ∧ (∀ mapeo : List (String × String),
        ("apellido_nombre (o apellido + nombre separados)" ∈ obtenerColumnasFaltantes mapeo
          ↔ ¬ ((mapeo.map Prod.snd).contains "apellido_nombre" = true
               ∨ ((mapeo.map Prod.snd).contains "apellido" = true
                  ∧ (mapeo.map Prod.snd).contains "nombre" = true)))
        ∧ ("dni o pasaporte" ∈ obtenerColumnasFaltantes mapeo
          ↔ ¬ ((mapeo.map Prod.snd).contains "dni" = true
               ∨ (mapeo.map Prod.snd).contains "pasaporte" = true))
        ∧ ("fecha_entrada (entrada)" ∈ obtenerColumnasFaltantes mapeo
          ↔ ¬ (mapeo.map Prod.snd).contains "fecha_entrada" = true))
    ∧ (∀ (mapeo : List (String × String)) (rows : List RawRow) (today : Date),
        obtenerColumnasFaltantes mapeo ≠ [] →
        importarNucleo mapeo rows today = .error (obtenerColumnasFaltantes mapeo))
    ∧ detectarMapeo ["Apellido", "Nombre", "DNI", "Fecha Entrada"] =
        [("Apellido", "apellido"), ("Nombre", "nombre"), ("DNI", "dni"),
         ("Fecha Entrada", "fecha_entrada")]
    ∧ obtenerColumnasFaltantes
        (detectarMapeo ["Apellido", "Nombre", "DNI", "Fecha Entrada"]) = []
    ∧ obtenerColumnasFaltantes (detectarMapeo ["Apellido", "Nombre", "Fecha Entrada"]) =
        ["dni o pasaporte"] := by
  refine ⟨?_, ?_, ?_, by decide, by decide, by decide⟩
  · intro mapeo
    simp only [obtenerColumnasFaltantes]
    cases h1 : (mapeo.map Prod.snd).contains "apellido_nombre" <;>
      cases h2 : (mapeo.map Prod.snd).contains "apellido" <;>
        cases h3 : (mapeo.map Prod.snd).contains "nombre" <;>
          cases h4 : (mapeo.map Prod.snd).contains "dni" <;>
            cases h5 : (mapeo.map Prod.snd).contains "pasaporte" <;>
              cases h6 : (mapeo.map Prod.snd).contains "fecha_entrada" <;>
                simp
  · intro mapeo
    simp only [obtenerColumnasFaltantes]
    cases h1 : (mapeo.map Prod.snd).contains "apellido_nombre" <;>
      cases h2 : (mapeo.map Prod.snd).contains "apellido" <;>
        cases h3 : (mapeo.map Prod.snd).contains "nombre" <;>
          cases h4 : (mapeo.map Prod.snd).contains "dni" <;>
            cases h5 : (mapeo.map Prod.snd).contains "pasaporte" <;>
              cases h6 : (mapeo.map Prod.snd).contains "fecha_entrada" <;>
                simp
  · intro mapeo rows today h
    simp only [importarNucleo]
    rw [if_pos h]

/-- C3 witness: an empty mapping misses every group, and the import
core aborts with exactly the aggregate list. -/
theorem c3_witness :
    obtenerColumnasFaltantes ([] : List (String × String)) ≠ []
    ∧ importarNucleo [] [] ⟨2024, 1, 1⟩ =
        .error ["apellido_nombre (o apellido + nombre separados)", "dni o pasaporte",
                "fecha_entrada (entrada)"] := by
  have h := c3_required_fields.2.2.1 [] [] ⟨2024, 1, 1⟩ (by decide)
  have e : obtenerColumnasFaltantes ([] : List (String × String)) =
      ["apellido_nombre (o apellido + nombre separados)", "dni o pasaporte",
       "fecha_entrada (entrada)"] := by decide
  rw [e] at h
  exact ⟨by decide, h⟩

/-! ## C1 — check-in date handling -/

/-- `procesar_dataframe` in one equation: the valid list collects
exactly the emitted records in row order, and the error list collects
exactly the rows whose processing raised, each with its 2-based row
number, its mapped raw values and its message — errors neither stop
processing nor leak into the valid list. -/
lemma procesarDataframe_eq (mapeo : List (String × String)) (rows : List RawRow)
    (today : Date) :
    procesarDataframe mapeo rows today =
      (rows.enum.filterMap (fun ir =>
          emittedP2 (procesarFila (campoACol mapeo) ir.2 (ir.1 + 2) today)),
       rows.enum.filterMap (fun ir =>
          match procesarFila (campoACol mapeo) ir.2 (ir.1 + 2) today with
          | .error e =>
            some ⟨ir.1 + 2, mapeo.map (fun p => (p.1, (assq ir.2 p.1).getD "")), [e]⟩
          | _ => none)) := by
  have aux : ∀ (l : List (Nat × RawRow)) (acc : List Registro × List ErrP2),
      l.foldl (fun acc ir =>
        match procesarFila (campoACol mapeo) ir.2 (ir.1 + 2) today with
        | .ok (some r) => (acc.1 ++ [r], acc.2)
        | .ok none => acc
        | .error e =>
          (acc.1, acc.2 ++ [⟨ir.1 + 2, mapeo.map (fun p => (p.1, (assq ir.2 p.1).getD "")), [e]⟩])) acc
      = (acc.1 ++ l.filterMap (fun ir =>
            emittedP2 (procesarFila (campoACol mapeo) ir.2 (ir.1 + 2) today)),
         acc.2 ++ l.filterMap (fun ir =>
            match procesarFila (campoACol mapeo) ir.2 (ir.1 + 2) today with
            | .error e =>
              some ⟨ir.1 + 2, mapeo.map (fun p => (p.1, (assq ir.2 p.1).getD "")), [e]⟩
            | _ => none)) := by
    intro l
    induction l with
    | nil => intro acc; simp
    | cons x t ih =>
      intro acc
      simp only [List.foldl_cons, List.filterMap_cons]
      cases hx : procesarFila (campoACol mapeo) x.2 (x.1 + 2) today with
      | ok v =>
        cases v with
        | none => simp [hx, ih, emittedP2]
        | some r => simp [hx, ih, emittedP2, List.append_assoc]
      | error e => simp [hx, ih, emittedP2, List.append_assoc]
  simp only [procesarDataframe]
  rw [aux]
  simp

/-- C1 (amended): in phase-2 `_procesar_fila`, a row that resolved a
name and a document but whose check-in value is absent or unparseable
raises the per-row error `"fecha de entrada inválida o ausente"`, and
`procesar_dataframe` appends it to the error list (see
`procesarDataframe_eq`) without stopping the remaining rows; no
phase-2 record is ever emitted with an unresolved check-in date.  The
parser in `utils/excel_parser.py` instead substitutes today's date
and emits the record as valid (see the counterexample). -/
theorem c1_fecha_entrada_requerida :
    (∀ (cm : List (String × String)) (row : RawRow) (n : Nat) (t : Date) (reg : Registro),
        procesarFila cm row n t = .ok (some reg) →
        parseDateVal (getValP2 cm row "fecha_entrada") ≠ none)
    ∧ (∀ (cm : List (String × String)) (row : RawRow) (n : Nat) (t : Date),
        ¬ ((nombresP2 cm row).1 = "" ∧ (nombresP2 cm row).2 = "") →
        ¬ ((documentosP2 cm row).1 = none ∧ (documentosP2 cm row).2 = none) →
        parseDateVal (getValP2 cm row "fecha_entrada") = none →
        procesarFila cm row n t = .error (msgFechaEntrada n))
    ∧ (∀ (mapeo : List (String × String)) (rows : List RawRow) (today : Date),
        (procesarDataframe mapeo rows today).2 =
          rows.enum.filterMap (fun ir =>
            match procesarFila (campoACol mapeo) ir.2 (ir.1 + 2) today with
            | .error e =>
              some ⟨ir.1 + 2, mapeo.map (fun p => (p.1, (assq ir.2 p.1).getD "")), [e]⟩
            | _ => none)) := by
  refine ⟨?_, ?_, fun mapeo rows today => by rw [procesarDataframe_eq]⟩
  · intro cm row n t reg h
    intro hfe
    simp only [procesarFila] at h
    rw [hfe] at h
    split at h
    · exact absurd h (by simp)
    · split at h
      · exact absurd h (by simp)
      · exact absurd h (by simp)
  · intro cm row n t hnames hdocs hfe
    simp only [procesarFila]
    rw [if_neg hnames, if_neg hdocs, hfe]

/-- C1 counterexample: a row with a name and a document but no
check-in cell at all is emitted as valid by
`ExcelParser._process_row` / `ExcelParser.parse` with today's date
substituted, and no error is recorded. -/
theorem c1_counterexample :
    exGetValue [("apellido", "GOMEZ"), ("nombre", "JUAN"), ("dni", "12345678")]
      "fecha_entrada" = none
    ∧ (emittedReg (processRow noFallback ⟨2024, 5, 10⟩
        [("apellido", "GOMEZ"), ("nombre", "JUAN"), ("dni", "12345678")])).map
          RegistroEx.fechaEntrada = some "2024-05-10"
    ∧ (parseRows noFallback ⟨2024, 5, 10⟩
        [⟨[("apellido", "GOMEZ"), ("nombre", "JUAN"), ("dni", "12345678")], "1", 2⟩]).valid.length = 1
    ∧ (parseRows noFallback ⟨2024, 5, 10⟩
        [⟨[("apellido", "GOMEZ"), ("nombre", "JUAN"), ("dni", "12345678")], "1", 2⟩]).errors = [] := by
  exact ⟨by decide, by decide, by decide, by decide⟩

/-- C1 witness: the amended theorem applied to a row whose check-in
cell holds unparseable text. -/
theorem c1_witness :
    procesarFila [("apellido", "A"), ("nombre", "N"), ("dni", "D"), ("fecha_entrada", "F")]
      [("A", "GOMEZ"), ("N", "JUAN"), ("D", "12345678"), ("F", "notadate")] 2 ⟨2024, 1, 1⟩
      = .error (msgFechaEntrada 2) := by
  exact c1_fecha_entrada_requerida.2.1
    [("apellido", "A"), ("nombre", "N"), ("dni", "D"), ("fecha_entrada", "F")]
    [("A", "GOMEZ"), ("N", "JUAN"), ("D", "12345678"), ("F", "notadate")] 2 ⟨2024, 1, 1⟩
    (by decide) (by decide) (by decide)

/-! ## C5 — age computed from the birth date -/

/-- C5 (amended): in phase-2 `_procesar_fila`, a row emitted without a
valid age column value but with a resolved birth date carries the
computed age: check-in year minus birth year, minus one when the
check-in month/day precedes the birth month/day (the reference is
always the check-in date, which is required on every emitted phase-2
record; `date.today()` would only be consulted if it were absent).
`ExcelParser._process_row` never computes an age from the birth date
(see the counterexample). -/
theorem c5_edad_calculada :
    ∀ (cm : List (String × String)) (row : RawRow) (n : Nat) (t : Date) (reg : Registro)
      (b fe : Date),
      procesarFila cm row n t = .ok (some reg) →
      parseEdadVal (getValP2 cm row "edad") = none →
      parseDateVal (getValP2 cm row "fecha_nacimiento") = some b →
      parseDateVal (getValP2 cm row "fecha_entrada") = some fe →
      reg.edad = some ((fe.year : Int) - (b.year : Int) -
        (if fe.month < b.month ∨ (fe.month = b.month ∧ fe.day < b.day) then 1 else 0)) := by
  intro cm row n t reg b fe h hedad hnac hfe
  simp only [procesarFila] at h
  rw [hedad, hnac, hfe] at h
  split at h
  · exact absurd h (by simp)
  · split at h
    · exact absurd h (by simp)
    · simp only [Except.ok.injEq, Option.some.injEq] at h
      subst h
      simp only [computeEdad]
      by_cases hc : fe.month < b.month ∨ (fe.month = b.month ∧ fe.day < b.day)
      · simp [hc]
      · simp [hc]

/-- C5 counterexample: a row with no age column, birth date
2000-05-20 and check-in date 2024-05-10 is emitted by
`ExcelParser._process_row` with no age at all instead of the claimed
computed age 23 — the checked-in parser stores the birth date but
never derives an age from it. -/
theorem c5_counterexample :
    parseEdadVal (exGetValue [("apellido", "GOMEZ"), ("nombre", "JUAN"), ("dni", "12345678"),
        ("fecha_entrada", "10/05/2024"), ("fecha_nacimiento", "20/05/2000")] "edad") = none
    ∧ excelParseDate noFallback (exGetValue [("apellido", "GOMEZ"), ("nombre", "JUAN"),
        ("dni", "12345678"), ("fecha_entrada", "10/05/2024"),
        ("fecha_nacimiento", "20/05/2000")] "fecha_nacimiento") = some ⟨2000, 5, 20⟩
    ∧ excelParseDate noFallback (exGetValue [("apellido", "GOMEZ"), ("nombre", "JUAN"),
        ("dni", "12345678"), ("fecha_entrada", "10/05/2024"),
        ("fecha_nacimiento", "20/05/2000")] "fecha_entrada") = some ⟨2024, 5, 10⟩
    ∧ (emittedReg (processRow noFallback ⟨2024, 6, 1⟩
        [("apellido", "GOMEZ"), ("nombre", "JUAN"), ("dni", "12345678"),
         ("fecha_entrada", "10/05/2024"), ("fecha_nacimiento", "20/05/2000")])).map
          RegistroEx.edad = some none := by
  exact ⟨by decide, by decide, by decide, by decide⟩

/-- C5 witness: birth date 2000-05-20 with check-in 2024-05-10 yields
computed age 23. -/
theorem c5_witness :
    (emittedP2 (procesarFila
        [("apellido_nombre", "A"), ("dni", "D"), ("fecha_entrada", "F"), ("fecha_nacimiento", "N")]
        [("A", "GOMEZ JUAN"), ("D", "12345678"), ("F", "10/05/2024"), ("N", "20/05/2000")]
        2 ⟨2024, 6, 1⟩)).map Registro.edad = some (some 23) := by
  cases hE : procesarFila
      [("apellido_nombre", "A"), ("dni", "D"), ("fecha_entrada", "F"), ("fecha_nacimiento", "N")]
      [("A", "GOMEZ JUAN"), ("D", "12345678"), ("F", "10/05/2024"), ("N", "20/05/2000")]
      2 ⟨2024, 6, 1⟩ with
  | error e =>
    have hok : (emittedP2 (procesarFila
        [("apellido_nombre", "A"), ("dni", "D"), ("fecha_entrada", "F"), ("fecha_nacimiento", "N")]
        [("A", "GOMEZ JUAN"), ("D", "12345678"), ("F", "10/05/2024"), ("N", "20/05/2000")]
        2 ⟨2024, 6, 1⟩)).isSome = true := by decide
    rw [hE] at hok
    simp [emittedP2] at hok
  | ok o =>
    cases o with
    | none =>
      have hok : (emittedP2 (procesarFila
          [("apellido_nombre", "A"), ("dni", "D"), ("fecha_entrada", "F"), ("fecha_nacimiento", "N")]
          [("A", "GOMEZ JUAN"), ("D", "12345678"), ("F", "10/05/2024"), ("N", "20/05/2000")]
          2 ⟨2024, 6, 1⟩)).isSome = true := by decide
      rw [hE] at hok
      simp [emittedP2] at hok
    | some reg =>
      have he := c5_edad_calculada _ _ 2 ⟨2024, 6, 1⟩ reg ⟨2000, 5, 20⟩ ⟨2024, 5, 10⟩ hE
        (by decide) (by decide) (by decide)
      simp only [emittedP2, Option.map]
      rw [he]
      decide

/-! ## C8 — date-format priority

The literal format-list order of the phase-2 `_parse_date` differs
from the grouping the spec describes, but every pair of formats whose
relative order differs can never both match one string (different
separators, or a four-digit year field against a one-to-two-digit day
field), so the two orders give the same parser — proved below as an
extensional equality through adjacent transpositions. -/

lemma firstMatch_append (l1 l2 : List DateFmt) (s : String) :
    firstMatch (l1 ++ l2) s =
      match firstMatch l1 s with
      | some d => some d
      | none => firstMatch l2 s := by
  induction l1 with
  | nil => simp [firstMatch]
  | cons f t ih =>
    simp only [List.cons_append, firstMatch]
    cases matchFmt f s <;> simp [ih]

/-- `okDay` forces an all-digit field of at most two characters. -/
lemma okDay_props (p : List Char) (h : okDay p = true) :
    allDigits p = true ∧ p.length ≤ 2 := by
  have hh : ((allDigits p = true ∧ p.length ≤ 2) ∧ 1 ≤ natOfDigits p)
      ∧ natOfDigits p ≤ 31 := by
    simpa [okDay, Bool.and_eq_true] using h
  exact ⟨hh.1.1.1, hh.1.1.2⟩

lemma okMonth_digits (p : List Char) (h : okMonth p = true) : allDigits p = true := by
  have hh : ((allDigits p = true ∧ p.length ≤ 2) ∧ 1 ≤ natOfDigits p)
      ∧ natOfDigits p ≤ 12 := by
    simpa [okMonth, Bool.and_eq_true] using h
  exact hh.1.1.1

/-- `okY4` forces an all-digit field of exactly four characters. -/
lemma okY4_props (p : List Char) (h : okY4 p = true) :
    allDigits p = true ∧ p.length = 4 := by
  simpa [okY4, Bool.and_eq_true] using h

lemma okY2_digits (p : List Char) (h : okY2 p = true) : allDigits p = true := by
  have hh : allDigits p = true ∧ p.length = 2 := by
    simpa [okY2, Bool.and_eq_true] using h
  exact hh.1

/-- A successful `strptime` fixes the three separator-split fields:
all are digit runs, a four-digit-year-first format forces a four-digit
first field, and a day-first format forces a first field of at most
two digits. -/
lemma matchFmt_fields (f : DateFmt) (s : String) (d : Date)
    (h : matchFmt f s = some d) :
    ∃ a b c, splitSep f.sep s.data = [a, b, c]
      ∧ allDigits a = true ∧ allDigits b = true ∧ allDigits c = true
      ∧ (f.ord = .ymd → f.y4 = true → a.length = 4)
      ∧ (f.ord = .dmy → a.length ≤ 2) := by
  obtain ⟨ord, sep, y4⟩ := f
  cases ord with
  | dmy =>
    cases y4 with
    | false =>
      simp only [matchFmt, Bool.cond_false] at h
      split at h
      · rename_i a b c heq
        split at h
        · rename_i hcond
          have hs : (okY2 c = true ∧ okMonth b = true) ∧ okDay a = true := by
            simpa [Bool.and_eq_true] using hcond
          exact ⟨a, b, c, heq, (okDay_props a hs.2).1, okMonth_digits b hs.1.2,
            okY2_digits c hs.1.1, fun hh => absurd hh (by simp),
            fun _ => (okDay_props a hs.2).2⟩
        · exact absurd h (by simp)
      · exact absurd h (by simp)
    | true =>
      simp only [matchFmt, Bool.cond_true] at h
      split at h
      · rename_i a b c heq
        split at h
        · rename_i hcond
          have hs : (okY4 c = true ∧ okMonth b = true) ∧ okDay a = true := by
            simpa [Bool.and_eq_true] using hcond
          exact ⟨a, b, c, heq, (okDay_props a hs.2).1, okMonth_digits b hs.1.2,
            (okY4_props c hs.1.1).1, fun hh => absurd hh (by simp),
            fun _ => (okDay_props a hs.2).2⟩
        · exact absurd h (by simp)
      · exact absurd h (by simp)
  | mdy =>
    cases y4 with
    | false =>
      simp only [matchFmt, Bool.cond_false] at h
      split at h
      · rename_i a b c heq
        split at h
        · rename_i hcond
          have hs : (okY2 c = true ∧ okMonth a = true) ∧ okDay b = true := by
            simpa [Bool.and_eq_true] using hcond
          exact ⟨a, b, c, heq, okMonth_digits a hs.1.2, (okDay_props b hs.2).1,
            okY2_digits c hs.1.1, fun hh => absurd hh (by simp),
            fun hh => absurd hh (by simp)⟩
        · exact absurd h (by simp)
      · exact absurd h (by simp)
    | true =>
      simp only [matchFmt, Bool.cond_true] at h
      split at h
      · rename_i a b c heq
        split at h
        · rename_i hcond
          have hs : (okY4 c = true ∧ okMonth a = true) ∧ okDay b = true := by
            simpa [Bool.and_eq_true] using hcond
          exact ⟨a, b, c, heq, okMonth_digits a hs.1.2, (okDay_props b hs.2).1,
            (okY4_props c hs.1.1).1, fun hh => absurd hh (by simp),
            fun hh => absurd hh (by simp)⟩
        · exact absurd h (by simp)
      · exact absurd h (by simp)
  | ymd =>
    cases y4 with
    | false =>
      simp only [matchFmt, Bool.cond_false] at h
      split at h
      · rename_i a b c heq
        split at h
        · rename_i hcond
          have hs : (okY2 a = true ∧ okMonth b = true) ∧ okDay c = true := by
            simpa [Bool.and_eq_true] using hcond
          exact ⟨a, b, c, heq, okY2_digits a hs.1.1, okMonth_digits b hs.1.2,
            (okDay_props c hs.2).1, fun _ hh => absurd hh (by simp),
            fun hh => absurd hh (by simp)⟩
        · exact absurd h (by simp)
      · exact absurd h (by simp)
    | true =>
      simp only [matchFmt, Bool.cond_true] at h
      split at h
      · rename_i a b c heq
        split at h
        · rename_i hcond
          have hs : (okY4 a = true ∧ okMonth b = true) ∧ okDay c = true := by
            simpa [Bool.and_eq_true] using hcond
          exact ⟨a, b, c, heq, (okY4_props a hs.1.1).1, okMonth_digits b hs.1.2,
            (okDay_props c hs.2).1, fun _ _ => (okY4_props a hs.1.1).2,
            fun hh => absurd hh (by simp)⟩
        · exact absurd h (by simp)
      · exact absurd h (by simp)

lemma splitSep_ne_nil (sep : Char) (l : List Char) : splitSep sep l ≠ [] := by
  cases l with
  | nil => simp [splitSep]
  | cons c t =>
    simp only [splitSep]
    split
    · simp
    · split <;> simp

lemma splitSep_of_not_mem (sep : Char) (l : List Char) (h : sep ∉ l) :
    splitSep sep l = [l] := by
  induction l with
  | nil => rfl
  | cons c t ih =>
    have hcs : ¬ c = sep := fun hc => h (by simp [hc])
    have ht : sep ∉ t := fun hm => h (List.mem_cons_of_mem _ hm)
    simp only [splitSep, if_neg hcs, ih ht]

lemma sep_mem_of_three (sep : Char) (l : List Char) (a b c : List Char)
    (h : splitSep sep l = [a, b, c]) : sep ∈ l := by
  by_contra hn
  rw [splitSep_of_not_mem sep l hn] at h
  simp at h

lemma mem_part (sep : Char) (l : List Char) (x : Char) (hx : x ∈ l) (hne : x ≠ sep) :
    ∃ p ∈ splitSep sep l, x ∈ p := by
  induction l with
  | nil => cases hx
  | cons y t ih =>
    by_cases hy : y = sep
    · subst hy
      simp only [splitSep, if_pos rfl]
      rcases List.mem_cons.mp hx with rfl | hxt
      · exact absurd rfl hne
      · obtain ⟨p, hp, hxp⟩ := ih hxt
        exact ⟨p, List.mem_cons_of_mem _ hp, hxp⟩
    · simp only [splitSep, if_neg hy]
      cases hsp : splitSep sep t with
      | nil => exact absurd hsp (splitSep_ne_nil sep t)
      | cons h0 r =>
        rcases List.mem_cons.mp hx with rfl | hxt
        · exact ⟨x :: h0, by simp, by simp⟩
        · obtain ⟨p, hp, hxp⟩ := ih hxt
          rw [hsp] at hp
          rcases List.mem_cons.mp hp with rfl | hpr
          · exact ⟨y :: p, by simp, List.mem_cons_of_mem _ hxp⟩
          · exact ⟨p, List.mem_cons_of_mem _ hpr, hxp⟩

/-- Two formats with different (non-digit) separators can never both
match: the first format's separator would have to sit inside one of
the second format's all-digit fields. -/
lemma disj_diff_sep (f g : DateFmt) (s : String) (d1 d2 : Date)
    (hsep : f.sep ≠ g.sep) (hdig : isDigitC f.sep = false)
    (h1 : matchFmt f s = some d1) (h2 : matchFmt g s = some d2) : False := by
  obtain ⟨a, b, c, hsp, _, _, _, _, _⟩ := matchFmt_fields f s d1 h1
  obtain ⟨a2, b2, c2, hsp2, hda2, hdb2, hdc2, _, _⟩ := matchFmt_fields g s d2 h2
  have hmem : f.sep ∈ s.data := sep_mem_of_three _ _ _ _ _ hsp
  obtain ⟨p, hp, hxp⟩ := mem_part g.sep s.data f.sep hmem hsep
  rw [hsp2] at hp
  have hdp : allDigits p = true := by
    simp only [List.mem_cons, List.not_mem_nil, or_false] at hp
    rcases hp with rfl | rfl | rfl
    · exact hda2
    · exact hdb2
    · exact hdc2
  have : isDigitC f.sep = true := by
    have hall := (by simpa [allDigits, Bool.and_eq_true] using hdp :
      p.isEmpty = false ∧ p.all isDigitC = true)
    exact List.all_eq_true.mp hall.2 f.sep hxp
  rw [hdig] at this
  cases this

/-- A four-digit-year-first format and a day-first format with the
same separator can never both match: the first field cannot be both
four digits and at most two. -/
lemma disj_ymd4_dmy (sep : Char) (y4 : Bool) (s : String) (d1 d2 : Date)
    (h1 : matchFmt ⟨.ymd, sep, true⟩ s = some d1)
    (h2 : matchFmt ⟨.dmy, sep, y4⟩ s = some d2) : False := by
  obtain ⟨a, b, c, hsp, _, _, _, hy, _⟩ := matchFmt_fields _ s d1 h1
  obtain ⟨a2, b2, c2, hsp2, _, _, _, _, hd⟩ := matchFmt_fields _ s d2 h2
  simp only at hsp hsp2
  rw [hsp] at hsp2
  simp only [List.cons.injEq] at hsp2
  have ha : a = a2 := hsp2.1
  have h4 := hy rfl rfl
  have h2l := hd rfl
  rw [← ha] at h2l
  omega

/-- Adjacent formats that can never both match may be swapped without
changing the parser. -/
lemma firstMatch_swap (p q : List DateFmt) (f g : DateFmt) (s : String)
    (hdisj : ∀ d1 d2, matchFmt f s = some d1 → matchFmt g s = some d2 → False) :
    firstMatch (p ++ f :: g :: q) s = firstMatch (p ++ g :: f :: q) s := by
  rw [firstMatch_append, firstMatch_append]
  cases firstMatch p s with
  | some d => rfl
  | none =>
    cases hf : matchFmt f s with
    | some d1 =>
      cases hg : matchFmt g s with
      | some d2 => exact absurd (hdisj d1 d2 hf hg) (by simp)
      | none => simp [firstMatch, hf, hg]
    | none => cases hg : matchFmt g s <;> simp [firstMatch, hf, hg]

/-- The phase-2 format list is extensionally the spec-order list. -/
lemma firstMatch_p2_spec (s : String) :
    firstMatch formatosP2 s = firstMatch formatosSpecOrder s := by
  have e1 : formatosP2 =
      [⟨.dmy, '/', true⟩, ⟨.dmy, '-', true⟩, ⟨.ymd, '-', true⟩, ⟨.dmy, '/', false⟩]
        ++ ⟨.dmy, '-', false⟩ :: ⟨.dmy, '.', true⟩ ::
          [⟨.dmy, '.', false⟩, ⟨.ymd, '/', true⟩, ⟨.mdy, '/', true⟩] := rfl
  rw [e1, firstMatch_swap _ _ _ _ s
    (fun d1 d2 ha hb => disj_diff_sep _ _ s d1 d2 (by decide) (by decide) ha hb)]
  have e2 : ([⟨.dmy, '/', true⟩, ⟨.dmy, '-', true⟩, ⟨.ymd, '-', true⟩, ⟨.dmy, '/', false⟩] :
        List DateFmt)
      ++ ⟨.dmy, '.', true⟩ :: ⟨.dmy, '-', false⟩ ::
        [⟨.dmy, '.', false⟩, ⟨.ymd, '/', true⟩, ⟨.mdy, '/', true⟩]
    = [⟨.dmy, '/', true⟩, ⟨.dmy, '-', true⟩, ⟨.ymd, '-', true⟩]
      ++ ⟨.dmy, '/', false⟩ :: ⟨.dmy, '.', true⟩ ::
        [⟨.dmy, '-', false⟩, ⟨.dmy, '.', false⟩, ⟨.ymd, '/', true⟩, ⟨.mdy, '/', true⟩] := rfl
  rw [e2, firstMatch_swap _ _ _ _ s
    (fun d1 d2 ha hb => disj_diff_sep _ _ s d1 d2 (by decide) (by decide) ha hb)]
  have e3 : ([⟨.dmy, '/', true⟩, ⟨.dmy, '-', true⟩, ⟨.ymd, '-', true⟩] : List DateFmt)
      ++ ⟨.dmy, '.', true⟩ :: ⟨.dmy, '/', false⟩ ::
        [⟨.dmy, '-', false⟩, ⟨.dmy, '.', false⟩, ⟨.ymd, '/', true⟩, ⟨.mdy, '/', true⟩]
    = [⟨.dmy, '/', true⟩, ⟨.dmy, '-', true⟩]
      ++ ⟨.ymd, '-', true⟩ :: ⟨.dmy, '.', true⟩ ::
        [⟨.dmy, '/', false⟩, ⟨.dmy, '-', false⟩, ⟨.dmy, '.', false⟩, ⟨.ymd, '/', true⟩,
         ⟨.mdy, '/', true⟩] := rfl
  rw [e3, firstMatch_swap _ _ _ _ s
    (fun d1 d2 ha hb => disj_diff_sep _ _ s d2 d1 (by decide) (by decide) hb ha)]
  have e4 : ([⟨.dmy, '/', true⟩, ⟨.dmy, '-', true⟩] : List DateFmt)
      ++ ⟨.dmy, '.', true⟩ :: ⟨.ymd, '-', true⟩ ::
        [⟨.dmy, '/', false⟩, ⟨.dmy, '-', false⟩, ⟨.dmy, '.', false⟩, ⟨.ymd, '/', true⟩,
         ⟨.mdy, '/', true⟩]
    = [⟨.dmy, '/', true⟩, ⟨.dmy, '-', true⟩, ⟨.dmy, '.', true⟩, ⟨.ymd, '-', true⟩,
       ⟨.dmy, '/', false⟩, ⟨.dmy, '-', false⟩]
      ++ ⟨.dmy, '.', false⟩ :: ⟨.ymd, '/', true⟩ :: [⟨.mdy, '/', true⟩] := rfl
  rw [e4, firstMatch_swap _ _ _ _ s
    (fun d1 d2 ha hb => disj_diff_sep _ _ s d1 d2 (by decide) (by decide) ha hb)]
  have e5 : ([⟨.dmy, '/', true⟩, ⟨.dmy, '-', true⟩, ⟨.dmy, '.', true⟩, ⟨.ymd, '-', true⟩,
        ⟨.dmy, '/', false⟩, ⟨.dmy, '-', false⟩] : List DateFmt)
      ++ ⟨.ymd, '/', true⟩ :: ⟨.dmy, '.', false⟩ :: [⟨.mdy, '/', true⟩]
    = [⟨.dmy, '/', true⟩, ⟨.dmy, '-', true⟩, ⟨.dmy, '.', true⟩, ⟨.ymd, '-', true⟩,
       ⟨.dmy, '/', false⟩]
      ++ ⟨.dmy, '-', false⟩ :: ⟨.ymd, '/', true⟩ :: [⟨.dmy, '.', false⟩, ⟨.mdy, '/', true⟩] := rfl
  rw [e5, firstMatch_swap _ _ _ _ s
    (fun d1 d2 ha hb => disj_diff_sep _ _ s d1 d2 (by decide) (by decide) ha hb)]
  have e6 : ([⟨.dmy, '/', true⟩, ⟨.dmy, '-', true⟩, ⟨.dmy, '.', true⟩, ⟨.ymd, '-', true⟩,
        ⟨.dmy, '/', false⟩] : List DateFmt)
      ++ ⟨.ymd, '/', true⟩ :: ⟨.dmy, '-', false⟩ :: [⟨.dmy, '.', false⟩, ⟨.mdy, '/', true⟩]
    = [⟨.dmy, '/', true⟩, ⟨.dmy, '-', true⟩, ⟨.dmy, '.', true⟩, ⟨.ymd, '-', true⟩]
      ++ ⟨.dmy, '/', false⟩ :: ⟨.ymd, '/', true⟩ ::
        [⟨.dmy, '-', false⟩, ⟨.dmy, '.', false⟩, ⟨.mdy, '/', true⟩] := rfl
  rw [e6, firstMatch_swap _ _ _ _ s
    (fun d1 d2 ha hb => disj_ymd4_dmy '/' false s d2 d1 hb ha)]
  rfl

/-- C8 counterexample: no cited parser is the claimed combination of
the spec-order explicit formats *and* a generic fallback
(`parseDateSpecFallback`).  The checked-in `ExcelParser._parse_date`
has no day/month/2-digit-year formats, so `"01/02/24"` — which the
claimed order parses day-first as 1 February 2024 for every fallback
— skips every explicit format and is delegated to the pandas
fallback (here `noFallback`, yielding `none`).  The phase-2
`_parse_date` has the claimed explicit order but no fallback at all:
`"20240201"` matches no explicit format, so the claimed parser
returns whatever the fallback finds while phase-2 returns `None`. -/
theorem c8_counterexample :
    parseDateSpecFallback noFallback "01/02/24" = some ⟨2024, 2, 1⟩
    ∧ excelParseDate noFallback (some "01/02/24") = none
    ∧ firstMatch formatosEx "01/02/24" = none
    ∧ parseDateSpecFallback (fun _ => some ⟨2024, 2, 1⟩) "20240201" = some ⟨2024, 2, 1⟩
    ∧ parseDateStr "20240201" = none := by
  refine ⟨by decide, by decide, by decide, by decide, by decide⟩

/-- C8 (amended): the phase-2 date parser tries its explicit formats
and returns the first success or `None`, with no generic fallback;
its literal list order is extensionally the spec-described priority
order (`parseDateStrSpecOrder`); a string matching the leading
day/month/4-digit-year format parses that way regardless of any later
format; the checked-in `ExcelParser._parse_date` consults its generic
pandas fallback only after every explicit format has failed, and —
lacking any 2-digit-year format — delegates `"01/02/24"` to that
fallback instead of parsing it day-first; and the ambiguous
`"01/02/2024"` — which the month-first format would read as January 2
— parses day-first as 1 February 2024 in both parsers. -/
theorem c8_orden_formatos :
    (∀ s : String, parseDateStr s = parseDateStrSpecOrder s)
    ∧ (∀ (s : String) (d1 : Date),
        matchFmt ⟨.dmy, '/', true⟩ s = some d1 →
        pyStrip s = s →
        ¬ (s = "" ∨ toLowerStr s ∈ badDateTokens) →
        parseDateStr s = some d1)
    ∧ (∀ (fb : String → Option Date) (s : String) (d : Date),
        s ≠ "" →
        firstMatch formatosEx (pyStrip s) = some d →
        excelParseDate fb (some s) = some d)
    ∧ (∀ (fb : String → Option Date) (s : String),
        s ≠ "" →
        firstMatch formatosEx (pyStrip s) = none →
        excelParseDate fb (some s) = fb s)
    ∧ parseDateStr "01/02/2024" = some ⟨2024, 2, 1⟩
    ∧ matchFmt ⟨.mdy, '/', true⟩ "01/02/2024" = some ⟨2024, 1, 2⟩
    ∧ (∀ fb : String → Option Date,
        excelParseDate fb (some "01/02/2024") = some ⟨2024, 2, 1⟩)
    ∧ (∀ fb : String → Option Date,
        excelParseDate fb (some "01/02/24") = fb "01/02/24") := by
  refine ⟨?_, ?_, ?_, ?_, by decide, by decide, ?_, ?_⟩
  · intro s
    simp only [parseDateStr, parseDateStrSpecOrder]
    by_cases hg : pyStrip s = "" ∨ toLowerStr (pyStrip s) ∈ badDateTokens
    · rw [if_pos hg, if_pos hg]
    · rw [if_neg hg, if_neg hg]
      exact firstMatch_p2_spec (pyStrip s)
  · intro s d1 hm hstrip hguard
    simp only [parseDateStr]
    rw [hstrip, if_neg hguard]
    simp [formatosP2, firstMatch, hm]
  · intro fb s d hne h
    simp only [excelParseDate]
    rw [if_neg hne, h]
  · intro fb s hne h
    simp only [excelParseDate]
    rw [if_neg hne, h]
  · intro fb
    simp only [excelParseDate]
    rw [if_neg (by decide)]
    have h : firstMatch formatosEx (pyStrip "01/02/2024") = some ⟨2024, 2, 1⟩ := by decide
    rw [h]
  · intro fb
    simp only [excelParseDate]
    rw [if_neg (by decide)]
    have h : firstMatch formatosEx (pyStrip "01/02/24") = none := by decide
    rw [h]

/-- C8 witness: both parsers resolve the ambiguous string day-first,
through the theorem. -/
theorem c8_witness :
    excelParseDate noFallback (some "01/02/2024") = some ⟨2024, 2, 1⟩
    ∧ parseDateStr "01/02/2024" = some ⟨2024, 2, 1⟩ := by
  exact ⟨c8_orden_formatos.2.2.1 noFallback "01/02/2024" ⟨2024, 2, 1⟩ (by decide) (by decide),
         c8_orden_formatos.2.1 "01/02/2024" ⟨2024, 2, 1⟩ (by decide) (by decide) (by decide)⟩

/-! ## C9 — the normaliser is idempotent

The output of `_normalize` consists of lowercase-ASCII alphanumerics
and isolated, non-edge underscores; every pipeline stage fixes such
strings, so a second application is the identity. -/

lemma mem_dropWhile {p : Char → Bool} {l : List Char} {c : Char}
    (h : c ∈ l.dropWhile p) : c ∈ l := by
  induction l with
  | nil => simp at h
  | cons a t ih =>
    rw [List.dropWhile_cons] at h
    by_cases hp : p a = true
    · rw [if_pos hp] at h
      exact List.mem_cons_of_mem _ (ih h)
    · rw [if_neg hp] at h
      exact h

lemma head_dropWhile {p : Char → Bool} {l : List Char} {c : Char}
    (h : (l.dropWhile p).head? = some c) : p c = false := by
  induction l with
  | nil => simp at h
  | cons a t ih =>
    rw [List.dropWhile_cons] at h
    by_cases hp : p a = true
    · rw [if_pos hp] at h
      exact ih h
    · rw [if_neg hp] at h
      simp only [List.head?_cons, Option.some.injEq] at h
      subst h
      exact Bool.eq_false_iff.mpr hp

lemma getLast_dropWhile_ne {p : Char → Bool} {l : List Char}
    (h : l.dropWhile p ≠ []) : (l.dropWhile p).getLast? = l.getLast? := by
  induction l with
  | nil => simp at h
  | cons a t ih =>
    rw [List.dropWhile_cons] at h ⊢
    by_cases hp : p a = true
    · rw [if_pos hp] at h ⊢
      have ht : t ≠ [] := by
        intro he
        subst he
        simp [List.dropWhile] at h
      rw [ih h]
      cases t with
      | nil => exact absurd rfl ht
      | cons b u => rw [List.getLast?_cons_cons]
    · rw [if_neg hp]

lemma noDbl_tail {a : Char} {l : List Char} (h : noDblUnd (a :: l) = true) :
    noDblUnd l = true := by
  cases l with
  | nil => rfl
  | cons b t =>
    have hh : (!(decide (a = '_') && decide (b = '_')) && noDblUnd (b :: t)) = true := h
    rw [Bool.and_eq_true] at hh
    exact hh.2

lemma noDbl_cons {a : Char} {l : List Char}
    (hhd : ∀ c, l.head? = some c → c = '_' → a ≠ '_')
    (h : noDblUnd l = true) : noDblUnd (a :: l) = true := by
  cases l with
  | nil => rfl
  | cons b t =>
    show (!(decide (a = '_') && decide (b = '_')) && noDblUnd (b :: t)) = true
    rw [h]
    by_cases hb : b = '_'
    · have ha := hhd b rfl hb
      simp [ha]
    · simp [hb]

lemma noDbl_dropWhile {p : Char → Bool} {l : List Char} (h : noDblUnd l = true) :
    noDblUnd (l.dropWhile p) = true := by
  induction l with
  | nil => simpa using h
  | cons a t ih =>
    rw [List.dropWhile_cons]
    by_cases hp : p a = true
    · rw [if_pos hp]
      exact ih (noDbl_tail h)
    · rw [if_neg hp]
      exact h

lemma noDbl_append_single {x : List Char} {a : Char}
    (h : noDblUnd x = true)
    (hl : ∀ c, x.getLast? = some c → c = '_' → a ≠ '_') :
    noDblUnd (x ++ [a]) = true := by
  induction x with
  | nil => rfl
  | cons b t ih =>
    cases t with
    | nil =>
      show (!(decide (b = '_') && decide (a = '_')) && noDblUnd [a]) = true
      by_cases hb : b = '_'
      · have := hl b rfl hb
        simp [noDblUnd, this]
      · simp [noDblUnd, hb]
    | cons c u =>
      have hparts : (!(decide (b = '_') && decide (c = '_'))
          && noDblUnd (c :: u)) = true := h
      rw [Bool.and_eq_true] at hparts
      obtain ⟨h1, h2⟩ := hparts
      have hl2 : ∀ d, (c :: u).getLast? = some d → d = '_' → a ≠ '_' := by
        intro d hd
        exact hl d (by rwa [List.getLast?_cons_cons])
      have hrec := ih h2 hl2
      show (!(decide (b = '_') && decide (c = '_'))
          && noDblUnd (c :: u ++ [a])) = true
      rw [h1, hrec]
      rfl

lemma noDbl_reverse {l : List Char} (h : noDblUnd l = true) :
    noDblUnd l.reverse = true := by
  induction l with
  | nil => rfl
  | cons a t ih =>
    simp only [List.reverse_cons]
    refine noDbl_append_single (ih (noDbl_tail h)) ?_
    intro c hc hcu
    subst hcu
    rw [List.getLast?_reverse] at hc
    cases t with
    | nil => simp at hc
    | cons b u =>
      simp only [List.head?_cons, Option.some.injEq] at hc
      subst hc
      have hparts : (!(decide (a = '_') && decide ('_' = '_'))
          && noDblUnd ('_' :: u)) = true := h
      rw [Bool.and_eq_true] at hparts
      obtain ⟨h1, _⟩ := hparts
      intro ha
      rw [ha] at h1
      simp at h1

lemma collapse_chars {b : Bool} {l : List Char} {c : Char}
    (h : c ∈ collapseAux b l) : isLowAl c = true ∨ c = '_' := by
  induction l generalizing b with
  | nil => simp [collapseAux] at h
  | cons a t ih =>
    simp only [collapseAux] at h
    by_cases ha : isLowAl a = true
    · rw [if_pos ha] at h
      rcases List.mem_cons.mp h with rfl | hm
      · exact Or.inl ha
      · exact ih hm
    · rw [if_neg ha] at h
      cases b with
      | true => exact ih h
      | false =>
        rcases List.mem_cons.mp h with rfl | hm
        · exact Or.inr rfl
        · exact ih hm

lemma collapse_true_head {l : List Char} {c : Char}
    (h : (collapseAux true l).head? = some c) : isLowAl c = true := by
  induction l with
  | nil => simp [collapseAux] at h
  | cons a t ih =>
    simp only [collapseAux] at h
    by_cases ha : isLowAl a = true
    · rw [if_pos ha] at h
      simp only [List.head?_cons, Option.some.injEq] at h
      subst h
      exact ha
    · rw [if_neg ha] at h
      exact ih h

lemma collapse_noDbl (b : Bool) (l : List Char) : noDblUnd (collapseAux b l) = true := by
  induction l generalizing b with
  | nil => rfl
  | cons a t ih =>
    simp only [collapseAux]
    by_cases ha : isLowAl a = true
    · rw [if_pos ha]
      refine noDbl_cons ?_ (ih false)
      intro c _ hcu hau
      rw [hau] at ha
      simp [isLowAl, isDigitC] at ha
    · rw [if_neg ha]
      cases b with
      | true => exact ih true
      | false =>
        refine noDbl_cons ?_ (ih true)
        intro c hc hcu _
        have := collapse_true_head hc
        rw [hcu] at this
        simp [isLowAl, isDigitC] at this

lemma mem_stripU {l : List Char} {c : Char} (h : c ∈ stripUnderscoresL l) : c ∈ l := by
  simp only [stripUnderscoresL] at h
  rw [List.mem_reverse] at h
  have h2 := mem_dropWhile h
  rw [List.mem_reverse] at h2
  exact mem_dropWhile h2

lemma noDbl_stripU {l : List Char} (h : noDblUnd l = true) :
    noDblUnd (stripUnderscoresL l) = true := by
  simp only [stripUnderscoresL]
  exact noDbl_reverse (noDbl_dropWhile (noDbl_reverse (noDbl_dropWhile h)))

lemma head_stripU {l : List Char} {c : Char}
    (h : (stripUnderscoresL l).head? = some c) : c ≠ '_' := by
  simp only [stripUnderscoresL] at h
  rw [List.head?_reverse] at h
  have hne : List.dropWhile (fun x => decide (x = '_'))
      (List.dropWhile (fun x => decide (x = '_')) l).reverse ≠ [] := by
    intro he
    rw [he] at h
    simp at h
  rw [getLast_dropWhile_ne hne, List.getLast?_reverse] at h
  have := head_dropWhile h
  simpa using this

lemma getLast_stripU {l : List Char} {c : Char}
    (h : (stripUnderscoresL l).getLast? = some c) : c ≠ '_' := by
  simp only [stripUnderscoresL] at h
  rw [List.getLast?_reverse] at h
  have := head_dropWhile h
  simpa using this

lemma dropWhile_eq_self_of_head {p : Char → Bool} {l : List Char}
    (h : ∀ c, l.head? = some c → p c = false) : l.dropWhile p = l := by
  cases l with
  | nil => rfl
  | cons a t =>
    rw [List.dropWhile_cons, h a rfl]
    simp

/-- A list with no edge underscore is fixed by `.strip("_")`. -/
lemma stripU_eq_self {l : List Char}
    (hh : ∀ c, l.head? = some c → c ≠ '_')
    (hl : ∀ c, l.getLast? = some c → c ≠ '_') :
    stripUnderscoresL l = l := by
  have h1 : List.dropWhile (fun x => decide (x = '_')) l = l :=
    dropWhile_eq_self_of_head (fun c hc => by simpa using hh c hc)
  have h2 : List.dropWhile (fun x => decide (x = '_')) l.reverse = l.reverse :=
    dropWhile_eq_self_of_head (fun c hc => by
      rw [List.head?_reverse] at hc
      simpa using hl c hc)
  simp only [stripUnderscoresL]
  rw [h1, h2, List.reverse_reverse]

/-- A list of isolated-underscore, lowercase-alphanumeric characters
with no trailing underscore is fixed by the collapse pass. -/
lemma collapse_fixed :
    ∀ (n : Nat) (y : List Char), y.length ≤ n →
      (∀ c ∈ y, isLowAl c = true ∨ c = '_') →
      noDblUnd y = true →
      (∀ c, y.getLast? = some c → c ≠ '_') →
      collapseAux false y = y := by
  intro n
  induction n with
  | zero =>
    intro y hlen _ _ _
    have : y = [] := List.eq_nil_of_length_eq_zero (Nat.le_zero.mp hlen)
    subst this
    rfl
  | succ n ih =>
    intro y hlen hchars hdbl hlast
    cases y with
    | nil => rfl
    | cons a t =>
      by_cases ha : isLowAl a = true
      · simp only [collapseAux, if_pos ha]
        have ht : collapseAux false t = t := by
          refine ih t ?_ (fun c hc => hchars c (List.mem_cons_of_mem _ hc))
            (noDbl_tail hdbl) ?_
          · simpa using Nat.le_of_succ_le_succ hlen
          · intro c hc
            cases t with
            | nil => simp at hc
            | cons b u => exact hlast c (by rwa [List.getLast?_cons_cons])
        rw [ht]
      · have ha2 : a = '_' := by
          rcases hchars a (List.mem_cons_self a t) with h1 | h2
          · exact absurd h1 ha
          · exact h2
        subst ha2
        cases t with
        | nil => exact absurd (hlast '_' rfl) (fun hf => hf rfl)
        | cons b u =>
          have hb : b ≠ '_' := by
            have hparts : (!(decide ('_' = '_') && decide (b = '_'))
                && noDblUnd (b :: u)) = true := hdbl
            rw [Bool.and_eq_true] at hparts
            obtain ⟨h1, _⟩ := hparts
            intro hbe
            rw [hbe] at h1
            simp at h1
          have hbl : isLowAl b = true := by
            rcases hchars b (List.mem_cons_of_mem _ (List.mem_cons_self b u)) with h1 | h2
            · exact h1
            · exact absurd h2 hb
          have hu : collapseAux false u = u := by
            refine ih u ?_ (fun c hc => hchars c (by simp [hc])) ?_ ?_
            · have hlen2 : u.length + 2 ≤ n + 1 := by simpa using hlen
              omega
            · exact noDbl_tail (noDbl_tail hdbl)
            · intro c hc
              cases u with
              | nil => simp at hc
              | cons d v =>
                refine hlast c ?_
                rw [List.getLast?_cons_cons, List.getLast?_cons_cons]
                exact hc
          show collapseAux false ('_' :: b :: u) = '_' :: b :: u
          simp only [collapseAux, if_neg (show ¬ isLowAl '_' = true by decide),
            if_pos hbl]
          rw [hu]

/-- ASCII-folding fixes the normal-form characters. -/
lemma asciiFold_fix {c : Char} (h : isLowAl c = true ∨ c = '_') : asciiFold c = [c] := by
  have hlt : c.toNat < 128 := by
    rcases h with h1 | h2
    · rw [isLowAl, Bool.or_eq_true] at h1
      rcases h1 with h3 | h4
      · rw [Bool.and_eq_true] at h3
        have : c.toNat ≤ 122 := of_decide_eq_true h3.2
        omega
      · rw [isDigitC, Bool.and_eq_true] at h4
        have : c.toNat ≤ 57 := of_decide_eq_true h4.2
        omega
    · subst h2
      decide
  simp only [asciiFold, if_pos hlt]

/-- Lowercasing fixes the normal-form characters. -/
lemma toLower_fix {c : Char} (h : isLowAl c = true ∨ c = '_') : Char.toLower c = c := by
  have hcond : ¬ (c.toNat ≥ 65 ∧ c.toNat ≤ 90) := by
    rcases h with h1 | h2
    · rw [isLowAl, Bool.or_eq_true] at h1
      rcases h1 with h3 | h4
      · rw [Bool.and_eq_true] at h3
        have : 97 ≤ c.toNat := of_decide_eq_true h3.1
        omega
      · rw [isDigitC, Bool.and_eq_true] at h4
        have : c.toNat ≤ 57 := of_decide_eq_true h4.2
        omega
    · subst h2
      decide
  simp only [Char.toLower]
  rw [if_neg hcond]

lemma flatten_fold_id {y : List Char} (h : ∀ c ∈ y, isLowAl c = true ∨ c = '_') :
    List.flatten (y.map asciiFold) = y := by
  induction y with
  | nil => rfl
  | cons a t ih =>
    simp only [List.map_cons, List.flatten_cons]
    rw [asciiFold_fix (h a (List.mem_cons_self a t)),
      ih (fun c hc => h c (List.mem_cons_of_mem _ hc))]
    rfl

lemma map_toLower_id {y : List Char} (h : ∀ c ∈ y, isLowAl c = true ∨ c = '_') :
    y.map Char.toLower = y := by
  induction y with
  | nil => rfl
  | cons a t ih =>
    simp only [List.map_cons]
    rw [toLower_fix (h a (List.mem_cons_self a t)),
      ih (fun c hc => h c (List.mem_cons_of_mem _ hc))]

/-- Strings already in the normaliser\'s output shape are fixed by
`_normalize`. -/
lemma normalize_fixed {y : List Char}
    (hchars : ∀ c ∈ y, isLowAl c = true ∨ c = '_')
    (hdbl : noDblUnd y = true)
    (hh : ∀ c, y.head? = some c → c ≠ '_')
    (hl : ∀ c, y.getLast? = some c → c ≠ '_') :
    normalizeP2 (String.mk y) = String.mk y := by
  by_cases hy : y = []
  · subst hy
    rfl
  · have hne : ¬ String.mk y = "" := by
      intro he
      exact hy (by simpa using congrArg String.data he)
    simp only [normalizeP2]
    rw [if_neg hne]
    show String.mk (stripUnderscoresL (collapseAux false
      ((List.flatten (y.map asciiFold)).map Char.toLower))) = String.mk y
    rw [flatten_fold_id hchars, map_toLower_id hchars,
      collapse_fixed y.length y (Nat.le_refl _) hchars hdbl hl,
      stripU_eq_self hh hl]

/-- C9: phase-2 `_normalize` is idempotent on every input, and the
two example headers both normalise into the `dni` alias set
(`"Nº Doc."` collapses to `"no_doc"`, which matches the alias
`"nº_doc"`, and `"n_doc"` is itself an alias), so both map to the same
canonical field. -/
theorem c9_normalize_idempotente :
    (∀ x : String, normalizeP2 (normalizeP2 x) = normalizeP2 x)
    ∧ normalizeP2 "Nº Doc." = "no_doc"
    ∧ normalizeP2 "n_doc" = "n_doc"
    ∧ mapColumn "Nº Doc." = some "dni"
    ∧ mapColumn "n_doc" = some "dni" := by
  refine ⟨?_, by decide, by decide, by decide, by decide⟩
  intro x
  by_cases hx : x = ""
  · subst hx
    rfl
  · have hdata : (normalizeP2 x).data = stripUnderscoresL (collapseAux false
        ((List.flatten (x.data.map asciiFold)).map Char.toLower)) := by
      simp only [normalizeP2]
      rw [if_neg hx]
    have heta : String.mk (normalizeP2 x).data = normalizeP2 x := rfl
    rw [← heta]
    refine normalize_fixed ?_ ?_ ?_ ?_
    · intro c hc
      rw [hdata] at hc
      exact collapse_chars (mem_stripU hc)
    · rw [hdata]
      exact noDbl_stripU (collapse_noDbl false _)
    · intro c hc
      rw [hdata] at hc
      exact head_stripU hc
    · intro c hc
      rw [hdata] at hc
      exact getLast_stripU hc

/-! ## The `parse` row loop in one equation -/

/-- The `ExcelParser.parse` row loop, characterised: valid records are
the first occurrences of each document key among the emitted records,
duplicates the later occurrences, errors the labelled raised rows, and
skipped the `None` rows. -/
lemma parseRows_aux (fb : String → Option Date) (today : Date) :
    ∀ (rows : List TaggedRow) (st : ParseAcc),
      rows.foldl (parseStep fb today) st =
        { valid := st.valid ++ keepFirstByKey st.seen (emittedRows fb today rows)
          errors := st.errors ++ errorsOf fb today rows
          dups := st.dups ++ dupsByKey st.seen (emittedRows fb today rows)
          seen := seenAfter st.seen (emittedRows fb today rows)
          skipped := st.skipped + skippedOf fb today rows } := by
  intro rows
  induction rows with
  | nil =>
    intro st
    simp [emittedRows, errorsOf, skippedOf, keepFirstByKey, dupsByKey, seenAfter]
  | cons t rest ih =>
    intro st
    rw [List.foldl_cons, ih]
    cases hx : processRow fb today t.cells with
    | error e =>
      simp [parseStep, hx, emittedRows, errorsOf, skippedOf, emittedReg,
        List.filterMap_cons, List.append_assoc]
    | ok o =>
      cases o with
      | none =>
        simp only [parseStep, hx]
        simp [emittedRows, errorsOf, skippedOf, emittedReg, List.filterMap_cons,
          List.filter_cons, hx]
        omega
      | some d0 =>
        have hem : emittedRows fb today (t :: rest) =
            stamp d0 t.hoja :: emittedRows fb today rest := by
          simp [emittedRows, List.filterMap_cons, hx, emittedReg]
        have her : errorsOf fb today (t :: rest) = errorsOf fb today rest := by
          simp [errorsOf, List.filterMap_cons, hx]
        have hsk : skippedOf fb today (t :: rest) = skippedOf fb today rest := by
          simp [skippedOf, List.filter_cons, hx]
        rw [hem, her, hsk]
        by_cases hcond : docKey (stamp d0 t.hoja) ≠ ""
            ∧ st.seen.contains (docKey (stamp d0 t.hoja)) = true
        · simp only [parseStep, hx, if_pos hcond]
          simp only [keepFirstByKey, dupsByKey, seenAfter, if_pos hcond]
          simp [List.append_assoc]
        · simp only [parseStep, hx, if_neg hcond]
          simp only [keepFirstByKey, dupsByKey, seenAfter, if_neg hcond]
          simp [List.append_assoc]

lemma contains_append_single {seen : List String} {j k : String} (h : j ≠ k) :
    (seen ++ [j]).contains k = seen.contains k := by
  have h1 : (seen ++ [j]).contains k = decide (k ∈ seen ++ [j]) := List.elem_eq_mem _ _
  have h2 : seen.contains k = decide (k ∈ seen) := List.elem_eq_mem _ _
  rw [h1, h2]
  simp only [List.mem_append, List.mem_singleton]
  by_cases hks : k ∈ seen
  · simp [hks]
  · have hkj : ¬ k = j := fun hkj => h hkj.symm
    simp [hks, hkj]

lemma countKey_cons_eq {k : String} {d : RegistroEx} (h : docKey d = k)
    (l : List RegistroEx) : countKey k (d :: l) = 1 + countKey k l := by
  simp only [countKey, List.filter_cons, h]
  simp [Nat.add_comm]

lemma countKey_cons_ne {k : String} {d : RegistroEx} (h : docKey d ≠ k)
    (l : List RegistroEx) : countKey k (d :: l) = countKey k l := by
  simp [countKey, List.filter_cons, h]

lemma countKey_keepFirst (k : String) (hk : k ≠ "") :
    ∀ (l : List RegistroEx) (seen : List String),
      countKey k (keepFirstByKey seen l) =
        if seen.contains k = true then 0 else min 1 (countKey k l) := by
  intro l
  induction l with
  | nil =>
    intro seen
    by_cases hs : seen.contains k = true
    · simp [keepFirstByKey, countKey, hs]
    · simp [keepFirstByKey, countKey, hs]
  | cons d t ih =>
    intro seen
    simp only [keepFirstByKey]
    by_cases hd : docKey d = k
    · have hdne : docKey d ≠ "" := by rw [hd]; exact hk
      by_cases hs : seen.contains k = true
      · rw [if_pos ⟨hdne, by rwa [hd]⟩, ih seen, if_pos hs, if_pos hs]
      · have hs2 : ¬ seen.contains (docKey d) = true := by rwa [hd]
        rw [if_neg (fun hcc => hs2 hcc.2), if_pos hdne]
        rw [countKey_cons_eq hd, countKey_cons_eq hd, ih]
        have hcont : (seen ++ [docKey d]).contains k = true := by
          rw [hd]
          have h1 : (seen ++ [k]).contains k = decide (k ∈ seen ++ [k]) :=
            List.elem_eq_mem _ _
          rw [h1]
          simp
        rw [if_pos hcont, if_neg hs, Nat.min_eq_left (by omega)]
    · by_cases hcond : docKey d ≠ "" ∧ seen.contains (docKey d) = true
      · rw [if_pos hcond, ih seen, countKey_cons_ne hd]
      · rw [if_neg hcond, countKey_cons_ne hd, countKey_cons_ne hd, ih]
        by_cases hdd : docKey d ≠ ""
        · rw [if_pos hdd, contains_append_single (fun hjk => hd hjk)]
        · rw [if_neg hdd]

lemma countKey_split (k : String) :
    ∀ (l : List RegistroEx) (seen : List String),
      countKey k (keepFirstByKey seen l) + countKey k (dupsByKey seen l)
        = countKey k l := by
  intro l
  induction l with
  | nil =>
    intro seen
    simp [keepFirstByKey, dupsByKey, countKey]
  | cons d t ih =>
    intro seen
    simp only [keepFirstByKey, dupsByKey]
    by_cases hd : docKey d = k
    · by_cases hcond : docKey d ≠ "" ∧ seen.contains (docKey d) = true
      · rw [if_pos hcond, if_pos hcond, countKey_cons_eq hd, countKey_cons_eq hd]
        have := ih seen
        omega
      · rw [if_neg hcond, if_neg hcond, countKey_cons_eq hd, countKey_cons_eq hd]
        have := ih (if docKey d ≠ "" then seen ++ [docKey d] else seen)
        omega
    · by_cases hcond : docKey d ≠ "" ∧ seen.contains (docKey d) = true
      · rw [if_pos hcond, if_pos hcond, countKey_cons_ne hd, countKey_cons_ne hd]
        exact ih seen
      · rw [if_neg hcond, if_neg hcond, countKey_cons_ne hd, countKey_cons_ne hd]
        exact ih (if docKey d ≠ "" then seen ++ [docKey d] else seen)

lemma findKey_cons_eq {k : String} {d : RegistroEx} (h : docKey d = k)
    (l : List RegistroEx) :
    (d :: l).find? (fun x => docKey x = k) = some d := by
  simp [List.find?, h]

lemma findKey_cons_ne {k : String} {d : RegistroEx} (h : docKey d ≠ k)
    (l : List RegistroEx) :
    (d :: l).find? (fun x => docKey x = k) = l.find? (fun x => docKey x = k) := by
  simp [List.find?, h]

lemma find_keepFirst (k : String) :
    ∀ (l : List RegistroEx) (seen : List String), seen.contains k = false →
      (keepFirstByKey seen l).find? (fun d => docKey d = k)
        = l.find? (fun d => docKey d = k) := by
  intro l
  induction l with
  | nil =>
    intro seen _
    simp [keepFirstByKey]
  | cons d t ih =>
    intro seen hs
    simp only [keepFirstByKey]
    by_cases hd : docKey d = k
    · have hnc : ¬ (docKey d ≠ "" ∧ seen.contains (docKey d) = true) := by
        intro hcc
        rw [hd, hs] at hcc
        exact absurd hcc.2 (by simp)
      rw [if_neg hnc, findKey_cons_eq hd, findKey_cons_eq hd]
    · by_cases hcond : docKey d ≠ "" ∧ seen.contains (docKey d) = true
      · rw [if_pos hcond, ih seen hs, findKey_cons_ne hd]
      · rw [if_neg hcond, findKey_cons_ne hd, findKey_cons_ne hd]
        refine ih _ ?_
        by_cases hdd : docKey d ≠ ""
        · rw [if_pos hdd, contains_append_single (fun hjk => hd hjk), hs]
        · rw [if_neg hdd]
          exact hs

/-! ## C6 — intra-batch duplicate routing -/

/-- C6: among the records the row loop emits, for any non-empty
document key occurring two or more times, exactly one record with that
key is appended to the valid list — and it is the first emitted one —
while every later one is routed to the duplicates bucket; duplicates
are not merged into the valid list and never contribute to the error
list, which consists exactly of the raised rows. -/
theorem c6_duplicados :
    ∀ (fb : String → Option Date) (today : Date) (rows : List TaggedRow) (k : String),
      k ≠ "" →
      2 ≤ countKey k (emittedRows fb today rows) →
      countKey k (parseRows fb today rows).valid = 1
      ∧ countKey k (parseRows fb today rows).dups
          = countKey k (emittedRows fb today rows) - 1
      ∧ (parseRows fb today rows).valid.find? (fun d => docKey d = k)
          = (emittedRows fb today rows).find? (fun d => docKey d = k)
      ∧ (parseRows fb today rows).errors = errorsOf fb today rows := by
  intro fb today rows k hk h2
  have hpr : parseRows fb today rows =
      { valid := keepFirstByKey [] (emittedRows fb today rows)
        errors := errorsOf fb today rows
        dups := dupsByKey [] (emittedRows fb today rows)
        seen := seenAfter [] (emittedRows fb today rows)
        skipped := skippedOf fb today rows } := by
    have hch := parseRows_aux fb today rows ⟨[], [], [], [], 0⟩
    simp only [parseRows]
    rw [hch]
    simp
  have hkc : countKey k (keepFirstByKey [] (emittedRows fb today rows)) = 1 := by
    rw [countKey_keepFirst k hk]
    rw [if_neg (by simp : ¬ (([] : List String).contains k = true))]
    exact Nat.min_eq_left (by omega)
  refine ⟨?_, ?_, ?_, ?_⟩
  · rw [hpr]
    exact hkc
  · rw [hpr]
    have hsplit := countKey_split k (emittedRows fb today rows) []
    simp only at hsplit ⊢
    omega
  · rw [hpr]
    exact find_keepFirst k (emittedRows fb today rows) [] rfl
  · rw [hpr]

/-- C6 witness: two rows whose raw documents both clean to
`"12345678"` — one record enters the valid list, the other lands in
the duplicates bucket. -/
theorem c6_witness :
    countKey "12345678" (parseRows noFallback ⟨2024, 5, 10⟩
      [⟨[("apellido", "GOMEZ"), ("nombre", "JUAN"), ("dni", "12345678"),
         ("fecha_entrada", "01/02/2024")], "1", 2⟩,
       ⟨[("apellido", "PEREZ"), ("nombre", "ANA"), ("dni", "12.345.678"),
         ("fecha_entrada", "02/02/2024")], "1", 3⟩]).valid = 1
    ∧ countKey "12345678" (parseRows noFallback ⟨2024, 5, 10⟩
      [⟨[("apellido", "GOMEZ"), ("nombre", "JUAN"), ("dni", "12345678"),
         ("fecha_entrada", "01/02/2024")], "1", 2⟩,
       ⟨[("apellido", "PEREZ"), ("nombre", "ANA"), ("dni", "12.345.678"),
         ("fecha_entrada", "02/02/2024")], "1", 3⟩]).dups = 1 := by
  have h := c6_duplicados noFallback ⟨2024, 5, 10⟩
    [⟨[("apellido", "GOMEZ"), ("nombre", "JUAN"), ("dni", "12345678"),
       ("fecha_entrada", "01/02/2024")], "1", 2⟩,
     ⟨[("apellido", "PEREZ"), ("nombre", "ANA"), ("dni", "12.345.678"),
       ("fecha_entrada", "02/02/2024")], "1", 3⟩] "12345678" (by decide) (by decide)
  refine ⟨h.1, ?_⟩
  have he : countKey "12345678" (emittedRows noFallback ⟨2024, 5, 10⟩
      [⟨[("apellido", "GOMEZ"), ("nombre", "JUAN"), ("dni", "12345678"),
         ("fecha_entrada", "01/02/2024")], "1", 2⟩,
       ⟨[("apellido", "PEREZ"), ("nombre", "ANA"), ("dni", "12.345.678"),
         ("fecha_entrada", "02/02/2024")], "1", 3⟩]) = 2 := by decide
  rw [h.2.1, he]

/-! ## C7 — sheet tagging and row numbering -/

lemma isBlank_cleanRow (rename : String → String) (r : RawRow) :
    isBlankRow (cleanRow rename r) = isBlankRow r := by
  simp [isBlankRow, cleanRow, List.all_map]
  rfl

lemma enumFrom_fila (l : List RawRow) :
    ∀ k : Nat, (List.enumFrom k l).map (fun ir => ir.1 + 2) = List.range' (k + 2) l.length := by
  induction l with
  | nil => intro k; rfl
  | cons r t ih =>
    intro k
    have h3 : k + 1 + 2 = k + 2 + 1 := by omega
    simp only [List.enumFrom, List.map_cons, List.length_cons, List.range'_succ,
      ih (k + 1), h3]
lemma enumFrom_readRows (name : String) (rename : String → String) (l : List RawRow) :
    ∀ k, (List.enumFrom k (l.map (cleanRow rename))).map
        (fun ir => (⟨ir.2, name, ir.1 + 2⟩ : TaggedRow))
      = (List.enumFrom k l).map
        (fun ir => (⟨cleanRow rename ir.2, name, ir.1 + 2⟩ : TaggedRow)) := by
  induction l with
  | nil => intro k; rfl
  | cons x t ih =>
    intro k
    simp only [List.map_cons, List.enumFrom, ih (k + 1)]

/-- A record `parse` kept as valid was among the emitted records. -/
lemma mem_keepFirst {l : List RegistroEx} {seen : List String} {d : RegistroEx}
    (h : d ∈ keepFirstByKey seen l) : d ∈ l := by
  induction l generalizing seen with
  | nil => exact absurd h (List.not_mem_nil d)
  | cons x t ih =>
    simp only [keepFirstByKey] at h
    by_cases hc : docKey x ≠ "" ∧ seen.contains (docKey x)
    · rw [if_pos hc] at h
      exact List.mem_cons_of_mem x (ih h)
    · rw [if_neg hc] at h
      rcases List.mem_cons.mp h with h1 | h2
      · subst h1; exact List.mem_cons_self d t
      · exact List.mem_cons_of_mem x (ih h2)

/-- A record `parse` routed to the duplicates bucket was among the
emitted records. -/
lemma mem_dups {l : List RegistroEx} {seen : List String} {d : RegistroEx}
    (h : d ∈ dupsByKey seen l) : d ∈ l := by
  induction l generalizing seen with
  | nil => exact absurd h (List.not_mem_nil d)
  | cons x t ih =>
    simp only [dupsByKey] at h
    by_cases hc : docKey x ≠ "" ∧ seen.contains (docKey x)
    · rw [if_pos hc] at h
      rcases List.mem_cons.mp h with h1 | h2
      · subst h1; exact List.mem_cons_self d t
      · exact List.mem_cons_of_mem x (ih h2)
    · rw [if_neg hc] at h
      exact List.mem_cons_of_mem x (ih h)

lemma stamp_hoja (d0 : RegistroEx) : (stamp d0 "2").hoja = some "2" := by
  rw [stamp, if_pos (by decide)]

/-- C7 counterexample: with a fully blank first data row, the
surviving second row — whose original position in the sheet is row 3
(1 header row + 2) — is renumbered to `_fila_original = 2`, because
`_read_file` assigns `range(2, len+2)` only after dropping blank
rows.  So an emitted row does not in general carry its original
position. -/
theorem c7_counterexample :
    isBlankRow [("a", "")] = true
    ∧ readSheetRows "2" id [[("a", "")], [("a", "X")]] = [⟨[("a", "X")], "2", 2⟩]
    ∧ ([[("a", "")], [("a", "X")]] : List RawRow).length + 1 = 3 := by
  refine ⟨by decide, by decide, by decide⟩

/-- C7 (amended): every row `_read_file` keeps is tagged with its
sheet name; the `_fila_original` numbers are the consecutive run
2, 3, … over the *surviving* rows (so they equal original sheet
positions exactly when no preceding row was blank — e.g. whenever the
sheet has no blank rows, as proved in the third conjunct); and the
sheet tag and row number propagate to everything `parse` emits: with
every tagged row from sheet "2", every valid and duplicate record
carries `_hoja_origen = "2"` and every error is labelled with
`Hoja '2' fila n` for the `_fila_original` n of one of the rows. -/
theorem c7_hoja_y_filas :
    (∀ name rename rows, ∀ t ∈ readSheetRows name rename rows, t.hoja = name)
    ∧ (∀ name rename rows,
        (readSheetRows name rename rows).map TaggedRow.fila
          = List.range' 2 (readSheetRows name rename rows).length)
    ∧ (∀ name rename rows, (∀ r ∈ rows, isBlankRow r = false) →
        readSheetRows name rename rows
          = rows.enum.map (fun ir => (⟨cleanRow rename ir.2, name, ir.1 + 2⟩ : TaggedRow)))
    ∧ (∀ fb today rows, (∀ t ∈ rows, t.hoja = "2") →
        (∀ d ∈ (parseRows fb today rows).valid, d.hoja = some "2")
        ∧ (∀ d ∈ (parseRows fb today rows).dups, d.hoja = some "2")
        ∧ (∀ e ∈ (parseRows fb today rows).errors,
            ∃ t ∈ rows, e.1 = rowLabel "2" t.fila)) := by
  refine ⟨?_, ?_, ?_, ?_⟩
  · intro name rename rows t ht
    obtain ⟨ir, _, rfl⟩ := List.mem_map.mp ht
    rfl
  · intro name rename rows
    simp only [readSheetRows, List.map_map, List.length_map]
    rw [List.enum]
    rw [show (TaggedRow.fila ∘ fun ir => (⟨ir.2, name, ir.1 + 2⟩ : TaggedRow))
        = (fun ir : Nat × RawRow => ir.1 + 2) from rfl]
    rw [enumFrom_fila]
    simp [List.enumFrom_length]
  · intro name rename rows hnb
    simp only [readSheetRows]
    have hf : (rows.map (cleanRow rename)).filter (fun r => !isBlankRow r)
        = rows.map (cleanRow rename) := by
      rw [List.filter_eq_self]
      intro r hr
      obtain ⟨r0, hr0, rfl⟩ := List.mem_map.mp hr
      simp [isBlank_cleanRow, hnb r0 hr0]
    rw [hf, List.enum, enumFrom_readRows, ← List.enum]
  · intro fb today rows hh
    have hp : parseRows fb today rows =
        { valid := [] ++ keepFirstByKey [] (emittedRows fb today rows)
          errors := [] ++ errorsOf fb today rows
          dups := [] ++ dupsByKey [] (emittedRows fb today rows)
          seen := seenAfter [] (emittedRows fb today rows)
          skipped := 0 + skippedOf fb today rows } :=
      parseRows_aux fb today rows ⟨[], [], [], [], 0⟩
    have hmem : ∀ d ∈ emittedRows fb today rows, d.hoja = some "2" := by
      intro d hd
      obtain ⟨t, ht, heq⟩ := List.mem_filterMap.mp hd
      obtain ⟨d0, _, hst⟩ := Option.map_eq_some'.mp heq
      rw [← hst, hh t ht]
      exact stamp_hoja d0
    refine ⟨?_, ?_, ?_⟩
    · intro d hd
      rw [hp] at hd
      simp only [List.nil_append] at hd
      exact hmem d (mem_keepFirst hd)
    · intro d hd
      rw [hp] at hd
      simp only [List.nil_append] at hd
      exact hmem d (mem_dups hd)
    · intro e he
      rw [hp] at he
      simp only [List.nil_append] at he
      obtain ⟨t, ht, heq⟩ := List.mem_filterMap.mp he
      refine ⟨t, ht, ?_⟩
      cases hx : processRow fb today t.cells with
      | error er =>
        rw [hx] at heq
        simp only [Option.some.injEq] at heq
        rw [← heq, ← hh t ht]
      | ok o =>
        rw [hx] at heq
        simp at heq

/-- C7 witness: a blank-free two-row sheet "2" gets tags ("2", 2) and
("2", 3); a one-row batch from sheet "2" emits only records stamped
with sheet "2". -/
theorem c7_witness :
    readSheetRows "2" id [[("dni", "1")], [("dni", "2")]]
      = [⟨[("dni", "1")], "2", 2⟩, ⟨[("dni", "2")], "2", 3⟩]
    ∧ ((parseRows noFallback ⟨2024, 5, 10⟩
          [⟨[("apellido", "GOMEZ"), ("nombre", "JUAN"), ("dni", "12345678"),
             ("fecha_entrada", "01/02/2024")], "2", 2⟩]).valid.all
        (fun d => d.hoja == some "2")) = true := by
  constructor
  · exact (c7_hoja_y_filas.2.2.1 "2" id [[("dni", "1")], [("dni", "2")]]
      (by decide)).trans (by decide)
  · have h4 := (c7_hoja_y_filas.2.2.2 noFallback ⟨2024, 5, 10⟩
      [⟨[("apellido", "GOMEZ"), ("nombre", "JUAN"), ("dni", "12345678"),
         ("fecha_entrada", "01/02/2024")], "2", 2⟩] (by decide)).1
    exact List.all_eq_true.mpr (fun d hd => by rw [h4 d hd]; decide)

/-! ## C10 — invariant of the emitted records, single-name routing -/

/-- `if hoja:` only sets `_hoja_origen`; every other field of the
record is untouched by the stamping. -/
lemma stamp_fields (d0 : RegistroEx) (h : String) :
    (stamp d0 h).apellido = d0.apellido ∧ (stamp d0 h).nombre = d0.nombre
    ∧ (stamp d0 h).dni = d0.dni ∧ (stamp d0 h).pasaporte = d0.pasaporte := by
  rw [stamp]
  split
  · exact ⟨rfl, rfl, rfl, rfl⟩
  · exact ⟨rfl, rfl, rfl, rfl⟩

/-- C10: every record `_process_row` returns (and hence every record
`parse` puts in the valid list or the duplicates bucket, since
stamping does not touch these fields) has a non-empty `apellido`, a
non-empty `nombre` and at least one of `dni` / `pasaporte` set; a row
resolving exactly one of the two names is never emitted — it raises
the required-field error when a document resolved and is silently
skipped (`return None`) when none did. -/
theorem c10_invariante_emision :
    (∀ fb today row d, processRow fb today row = .ok (some d) →
      d.apellido ≠ "" ∧ d.nombre ≠ "" ∧ (d.dni ≠ none ∨ d.pasaporte ≠ none))
    ∧ (∀ fb today rows d,
        d ∈ (parseRows fb today rows).valid ∨ d ∈ (parseRows fb today rows).dups →
        d.apellido ≠ "" ∧ d.nombre ≠ "" ∧ (d.dni ≠ none ∨ d.pasaporte ≠ none))
    ∧ (∀ fb today row, (nombresEx row).1 = none → (nombresEx row).2 ≠ none →
        (¬ ((docStage row).1 = none ∧ (docStage row).2 = none) →
          processRow fb today row = .error (msgObligatorio "apellido"))
        ∧ ((docStage row).1 = none ∧ (docStage row).2 = none →
          processRow fb today row = .ok none))
    ∧ (∀ fb today row, (nombresEx row).1 ≠ none → (nombresEx row).2 = none →
        (¬ ((docStage row).1 = none ∧ (docStage row).2 = none) →
          processRow fb today row = .error (msgObligatorio "apellido")
          ∨ processRow fb today row = .error (msgObligatorio "nombre"))
        ∧ ((docStage row).1 = none ∧ (docStage row).2 = none →
          processRow fb today row = .ok none)) := by
  have partA : ∀ fb today row d, processRow fb today row = .ok (some d) →
      d.apellido ≠ "" ∧ d.nombre ≠ "" ∧ (d.dni ≠ none ∨ d.pasaporte ≠ none) := by
    intro fb today row d h
    simp only [processRow] at h
    by_cases h1 : (nombresEx row).1 = none ∧ (nombresEx row).2 = none
    · rw [if_pos h1] at h
      simp at h
    · rw [if_neg h1] at h
      by_cases h2 : (docStage row).1 = none ∧ (docStage row).2 = none
      · rw [if_pos h2] at h
        split at h <;> simp at h
      · rw [if_neg h2] at h
        by_cases h3 : (nombresEx row).1.getD "" = ""
        · rw [if_pos h3] at h
          simp at h
        · rw [if_neg h3] at h
          by_cases h4 : (nombresEx row).2.getD "" = ""
          · rw [if_pos h4] at h
            simp at h
          · rw [if_neg h4] at h
            simp only [Except.ok.injEq, Option.some.injEq] at h
            subst h
            exact ⟨h3, h4, not_and_or.mp h2⟩
  refine ⟨partA, ?_, ?_, ?_⟩
  · intro fb today rows d hd
    have hp : parseRows fb today rows =
        { valid := [] ++ keepFirstByKey [] (emittedRows fb today rows)
          errors := [] ++ errorsOf fb today rows
          dups := [] ++ dupsByKey [] (emittedRows fb today rows)
          seen := seenAfter [] (emittedRows fb today rows)
          skipped := 0 + skippedOf fb today rows } :=
      parseRows_aux fb today rows ⟨[], [], [], [], 0⟩
    have hmem : d ∈ emittedRows fb today rows := by
      rcases hd with hd | hd
      · rw [hp] at hd
        simp only [List.nil_append] at hd
        exact mem_keepFirst hd
      · rw [hp] at hd
        simp only [List.nil_append] at hd
        exact mem_dups hd
    obtain ⟨t, _, heq⟩ := List.mem_filterMap.mp hmem
    obtain ⟨d0, hd0, hst⟩ := Option.map_eq_some'.mp heq
    have hpr : processRow fb today t.cells = .ok (some d0) := by
      cases hx : processRow fb today t.cells with
      | error e =>
        rw [hx] at hd0
        simp [emittedReg] at hd0
      | ok o =>
        cases o with
        | none =>
          rw [hx] at hd0
          simp [emittedReg] at hd0
        | some d1 =>
          rw [hx] at hd0
          simp only [emittedReg, Option.some.injEq] at hd0
          rw [hd0]
    have hinv := partA fb today t.cells d0 hpr
    obtain ⟨ha, hn, hdn, hps⟩ := stamp_fields d0 t.hoja
    rw [← hst, ha, hn, hdn, hps]
    exact hinv
  · intro fb today row h1 h2
    constructor
    · intro hdoc
      simp only [processRow]
      rw [if_neg (fun hb => h2 hb.2), if_neg hdoc, if_pos (by rw [h1]; rfl)]
    · intro hdoc
      simp only [processRow]
      rw [if_neg (fun hb => h2 hb.2), if_pos hdoc, if_neg (fun hb => hb.1 h1)]
  · intro fb today row h1 h2
    constructor
    · intro hdoc
      by_cases h3 : (nombresEx row).1.getD "" = ""
      · left
        simp only [processRow]
        rw [if_neg (fun hb => h1 hb.1), if_neg hdoc, if_pos h3]
      · right
        simp only [processRow]
        rw [if_neg (fun hb => h1 hb.1), if_neg hdoc, if_neg h3,
          if_pos (by rw [h2]; rfl)]
    · intro hdoc
      simp only [processRow]
      rw [if_neg (fun hb => h1 hb.1), if_pos hdoc, if_neg (fun hb => hb.2 h2)]

/-- C10 witness: a row with only a surname and a resolved DNI raises
a required-field error (here: for the missing given name); the same
row without any document is silently skipped. -/
theorem c10_witness :
    (processRow noFallback ⟨2024, 5, 10⟩ [("apellido", "GOMEZ"), ("dni", "12345678")]
        = .error (msgObligatorio "apellido")
      ∨ processRow noFallback ⟨2024, 5, 10⟩ [("apellido", "GOMEZ"), ("dni", "12345678")]
        = .error (msgObligatorio "nombre"))
    ∧ processRow noFallback ⟨2024, 5, 10⟩ [("apellido", "GOMEZ")] = .ok none := by
  constructor
  · exact (c10_invariante_emision.2.2.2 noFallback ⟨2024, 5, 10⟩
      [("apellido", "GOMEZ"), ("dni", "12345678")] (by decide) (by decide)).1 (by decide)
  · exact (c10_invariante_emision.2.2.2 noFallback ⟨2024, 5, 10⟩
      [("apellido", "GOMEZ")] (by decide) (by decide)).2 (by decide)

end SCAH
